import Mathlib

/-!
# VMime message analysis (messageParser, textPartFactory)

A shallow embedding of `src/src/messageParser.cpp` and `src/src/textPartFactory.cpp`.

* C++ exceptions become the error side of `Except Exn`.  Three exception classes can
  reach the analyzer: `exceptions::no_such_field` (thrown by `header::findField`),
  `exceptions::no_factory_available` (thrown by `textPartFactory::create`) and
  `std::bad_cast` (thrown by a `dynamic_cast` to a reference type whose operand has
  another dynamic class).
* The member state of `messageParser` is passed explicitly: every member function
  takes the parser state and returns the new one.
* `for` loops over `getPartAt(0) .. getPartAt(getPartCount() - 1)` become recursion
  over the list of child parts.
* A pointer to an attachment (the key of `m_attachInfo`) is the position of the
  attachment in `m_attach`: the analyzer allocates one attachment per `push_back`.
-/

namespace vmime

/-! ## Exceptions -/

/-- Exception classes that can be raised while a message is analysed. -/
inductive Exn where
  | no_such_field
  | no_factory_available
  | bad_cast
  deriving DecidableEq, Repr

/-- The statement `try body catch (exceptions::no_such_field) handler`: only
`no_such_field` is handled, every other exception propagates. -/
def catch_no_such_field {α : Type} (body : Except Exn α) (handler : Except Exn α) :
    Except Exn α :=
  match body with
  | .error .no_such_field => handler
  | r => r

/-- The statement `try body catch (exceptions::no_factory_available&) handler`. -/
def catch_no_factory_available {α : Type} (body : Except Exn α) (handler : Except Exn α) :
    Except Exn α :=
  match body with
  | .error .no_factory_available => handler
  | r => r

/-! ## Constants (src/src/constants.cpp) -/

namespace mediaTypes
def TEXT : String := "text"
def MULTIPART : String := "multipart"
def MESSAGE : String := "message"
def APPLICATION : String := "application"
def IMAGE : String := "image"
def AUDIO : String := "audio"
def VIDEO : String := "video"
def TEXT_PLAIN : String := "plain"
def TEXT_HTML : String := "html"
def TEXT_RICHTEXT : String := "richtext"
def TEXT_ENRICHED : String := "enriched"
def MULTIPART_MIXED : String := "mixed"
def MULTIPART_RELATED : String := "related"
def MULTIPART_ALTERNATIVE : String := "alternative"
def APPLICATION_OCTET_STREAM : String := "octet-stream"
def IMAGE_JPEG : String := "jpeg"
def IMAGE_GIF : String := "gif"
end mediaTypes

namespace dispositionTypes
/-- The constant the analyzer compares a disposition name with
(`contentDispositionTypes::INLINE` in constants.cpp). -/
def INLINE : String := "inline"
def ATTACHMENT : String := "attachment"
end dispositionTypes

namespace fields
def RECEIVED : String := "Received"
def FROM : String := "From"
def TO : String := "To"
def CC : String := "Cc"
def BCC : String := "Bcc"
def DATE : String := "Date"
def SUBJECT : String := "Subject"
def CONTENT_TYPE : String := "Content-Type"
def CONTENT_DESCRIPTION : String := "Content-Description"
def CONTENT_DISPOSITION : String := "Content-Disposition"
end fields

/-! ## Values carried by header fields -/

/-- A media type: the `type/subtype` pair. -/
structure mediaType where
  m_type : String
  m_subType : String
  deriving DecidableEq, Repr

def mediaType.getType (t : mediaType) : String := t.m_type

def mediaType.getSubType (t : mediaType) : String := t.m_subType

/-- Modelled from the spec: `mediaType::generate` is not under src; the spec gives the
registry key of a media type as the text `type/subtype`. -/
def mediaType.generate (t : mediaType) : String := t.m_type ++ "/" ++ t.m_subType

/-- The value of a Content-Disposition field; the analyzer reads its name only. -/
structure disposition where
  m_name : String
  deriving DecidableEq, Repr

def disposition.getName (d : disposition) : String := d.m_name

/-- A mailbox: display name and e-mail specification. -/
structure mailbox where
  m_name : String
  m_email : String
  deriving DecidableEq, Repr

/-- An address is a mailbox or a named group of mailboxes. -/
inductive address where
  | mailbox (m : vmime.mailbox)
  | group (name : String) (members : List vmime.mailbox)
  deriving DecidableEq, Repr

/-- The value of an address-list field: the addresses in order. -/
abbrev addressList := List address

/-- The value of a text field (subject, description). -/
abbrev text := String

/-- A date and time; the analyzer only copies such values. -/
structure datetime where
  m_year : Int
  m_month : Int
  m_day : Int
  m_hour : Int
  m_minute : Int
  m_second : Int
  m_zone : Int
  deriving DecidableEq, Repr

/-- The value of a Received field; the analyzer reads its date only. -/
structure relay where
  m_from : String
  m_by : String
  m_date : datetime
  deriving DecidableEq, Repr

def relay.getDate (r : relay) : datetime := r.m_date

/-! ## Header fields and headers -/

/-- The class template `genericField <T>` (see mailboxField.hpp): a named field whose
value has type `T`. -/
structure genericField (α : Type) where
  m_name : String
  m_value : α
  deriving DecidableEq, Repr

def genericField.getValue {α : Type} (f : genericField α) : α := f.m_value

/-- The deep copy made by `clone()`. -/
def genericField.clone {α : Type} (f : genericField α) : genericField α :=
  { m_name := f.m_name, m_value := f.m_value }

/-- A header field together with its dynamic class. -/
inductive headerField where
  | mailboxField (f : genericField mailbox)
  | addressListField (f : genericField addressList)
  | textField (f : genericField text)
  | dateField (f : genericField datetime)
  | relayField (f : genericField relay)
  | contentTypeField (f : genericField mediaType)
  | contentDispositionField (f : genericField disposition)
  | defaultField (f : genericField String)
  deriving DecidableEq, Repr

def headerField.getName : headerField → String
  | .mailboxField f => f.m_name
  | .addressListField f => f.m_name
  | .textField f => f.m_name
  | .dateField f => f.m_name
  | .relayField f => f.m_name
  | .contentTypeField f => f.m_name
  | .contentDispositionField f => f.m_name
  | .defaultField f => f.m_name

/-- The expression `dynamic_cast <mailboxField&>(f)`. -/
def headerField.cast_mailboxField : headerField → Except Exn (genericField mailbox)
  | .mailboxField f => .ok f
  | _ => .error .bad_cast

/-- The expression `dynamic_cast <addressListField&>(f)`. -/
def headerField.cast_addressListField : headerField → Except Exn (genericField addressList)
  | .addressListField f => .ok f
  | _ => .error .bad_cast

/-- The expression `dynamic_cast <textField&>(f)`. -/
def headerField.cast_textField : headerField → Except Exn (genericField text)
  | .textField f => .ok f
  | _ => .error .bad_cast

/-- The expression `dynamic_cast <dateField&>(f)`. -/
def headerField.cast_dateField : headerField → Except Exn (genericField datetime)
  | .dateField f => .ok f
  | _ => .error .bad_cast

/-- The expression `dynamic_cast <relayField&>(f)`. -/
def headerField.cast_relayField : headerField → Except Exn (genericField relay)
  | .relayField f => .ok f
  | _ => .error .bad_cast

/-- The expression `dynamic_cast <contentTypeField&>(f)`. -/
def headerField.cast_contentTypeField : headerField → Except Exn (genericField mediaType)
  | .contentTypeField f => .ok f
  | _ => .error .bad_cast

/-- The expression `dynamic_cast <contentDispositionField&>(f)`. -/
def headerField.cast_contentDispositionField :
    headerField → Except Exn (genericField disposition)
  | .contentDispositionField f => .ok f
  | _ => .error .bad_cast

/-- Lower-casing of a name, character by character. -/
def toLower (s : String) : String := ⟨s.data.map Char.toLower⟩

/-- A header: its fields in order. -/
structure header where
  m_fields : List headerField
  deriving DecidableEq, Repr

/-- Modelled from the spec: `header::findField` is not under src.  The spec has field
names case-insensitive, lookup by name returning the first match, and absence reported
as the recoverable no-such-field condition. -/
def header.findField (hdr : header) (fieldName : String) : Except Exn headerField :=
  match hdr.m_fields.find? (fun f => toLower f.getName == toLower fieldName) with
  | some f => .ok f
  | none => .error .no_such_field

/-! ## Body parts -/

/-- A body part: its header and its body.  The body (raw contents, declared encoding
and the ordered child parts) is owned by exactly one part and is stored inline. -/
inductive bodyPart where
  | mk (m_header : header) (m_contents : String) (m_encoding : String)
      (m_parts : List bodyPart)

def bodyPart.getHeader : bodyPart → header
  | .mk h _ _ _ => h

def bodyPart.getContents : bodyPart → String
  | .mk _ c _ _ => c

def bodyPart.getEncoding : bodyPart → String
  | .mk _ _ e _ => e

def bodyPart.getParts : bodyPart → List bodyPart
  | .mk _ _ _ ps => ps

def bodyPart.getPartCount (p : bodyPart) : Nat := p.getParts.length

/-- A message is its root body part. -/
abbrev message := bodyPart

/-! ## Attachments and text parts -/

/-- The object built by `new defaultAttachment (contents, encoding, type, description)`. -/
structure attachment where
  m_data : String
  m_encoding : String
  m_type : mediaType
  m_desc : text
  deriving DecidableEq, Repr

/-- The two text-part classes the registry knows. -/
inductive textPartKind where
  | plainTextPart
  | htmlTextPart
  deriving DecidableEq, Repr

/-- Modelled from the spec: `plainTextPart` and `htmlTextPart` are not under src.  The
spec has a text part as a projection over body parts; it is recorded here as the
constructor that built it and the three parts handed to `textPart::parse (message,
parent, textPart)`. -/
structure textPart where
  kind : textPartKind
  message : bodyPart
  parent : bodyPart
  part : bodyPart

/-! ## The text-part registry (src/src/textPartFactory.cpp) -/

/-- The registry: `m_nameMap` from key to constructor. -/
structure textPartFactory where
  m_nameMap : List (String × textPartKind)
  deriving DecidableEq, Repr

/-- Modelled from the spec: `registerType` is declared in textPartFactory.hpp, which is
not under src.  The spec keys the registry by `type/subtype` normalized to lowercase;
`std::map::insert` keeps an entry that is already there. -/
def textPartFactory.registerType (f : textPartFactory) (kind : textPartKind)
    (type : mediaType) : textPartFactory :=
  match f.m_nameMap.lookup (toLower type.generate) with
  | some _ => f
  | none => { m_nameMap := f.m_nameMap ++ [(toLower type.generate, kind)] }

/-- The constructor `textPartFactory::textPartFactory()`: registers the two default
names. -/
def textPartFactory.new : textPartFactory :=
  (({ m_nameMap := [] } : textPartFactory).registerType .plainTextPart
      { m_type := mediaTypes.TEXT, m_subType := mediaTypes.TEXT_PLAIN }).registerType
    .htmlTextPart { m_type := mediaTypes.TEXT, m_subType := mediaTypes.TEXT_HTML }

/-- The singleton `textPartFactory::getInstance()`: the registry as constructed. -/
def textPartFactory.getInstance : textPartFactory := textPartFactory.new

/-- The member `textPartFactory::create`: the constructor registered under the
generated name of `type`, or `no_factory_available`. -/
def textPartFactory.create (f : textPartFactory) (type : mediaType) :
    Except Exn textPartKind :=
  match f.m_nameMap.lookup type.generate with
  | some k => .ok k
  | none => .error .no_factory_available

/-! ## The message analyzer (src/src/messageParser.cpp) -/

/-- The member variables of `messageParser`.  `m_attachInfo` is keyed by the position
of the attachment in `m_attach`. -/
structure messageParser where
  m_from : mailbox
  m_to : addressList
  m_cc : addressList
  m_bcc : addressList
  m_subject : text
  m_date : datetime
  m_attach : List attachment
  m_attachInfo : List (Nat × genericField disposition)
  m_textParts : List textPart

/-- A fixed date for the members before `parse` runs; `parse` always assigns `m_date`. -/
def datetime.zero : datetime :=
  { m_year := 1970, m_month := 1, m_day := 1, m_hour := 0, m_minute := 0, m_second := 0,
    m_zone := 0 }

/-- The members as default-constructed, before `parse` runs. -/
def messageParser.init : messageParser :=
  { m_from := { m_name := "", m_email := "" }, m_to := [], m_cc := [], m_bcc := [],
    m_subject := "", m_date := datetime.zero, m_attach := [], m_attachInfo := [],
    m_textParts := [] }

/-- The expression `std::map::insert (value_type (key, value))`: an existing key keeps
its value. -/
def mapInsert (m : List (Nat × genericField disposition)) (key : Nat)
    (value : genericField disposition) : List (Nat × genericField disposition) :=
  match m.lookup key with
  | some _ => m
  | none => m ++ [(key, value)]

/-- The expression `dynamic_cast <contentDispositionField&>
(*hdr.findField (fields::CONTENT_DISPOSITION))`. -/
def header.findContentDisposition (hdr : header) : Except Exn (genericField disposition) :=
  match hdr.findField fields.CONTENT_DISPOSITION with
  | .ok f => f.cast_contentDispositionField
  | .error e => .error e

/-- The expression `dynamic_cast <contentTypeField&>
(*hdr.findField (fields::CONTENT_TYPE))`. -/
def header.findContentType (hdr : header) : Except Exn (genericField mediaType) :=
  match hdr.findField fields.CONTENT_TYPE with
  | .ok f => f.cast_contentTypeField
  | .error e => .error e

/-- The expression `dynamic_cast <textField&>
(*hdr.findField (fields::CONTENT_DESCRIPTION))`. -/
def header.findContentDescription (hdr : header) : Except Exn (genericField text) :=
  match hdr.findField fields.CONTENT_DESCRIPTION with
  | .ok f => f.cast_textField
  | .error e => .error e

/-- Lines 134-148 and 160-174 of messageParser.cpp: the value of the Content-Type
field, `application/octet-stream` when there is no such field. -/
def attachmentType (hdr : header) : Except Exn mediaType :=
  catch_no_such_field
    (match hdr.findContentType with
     | .ok ctf => .ok ctf.getValue
     | .error e => .error e)
    (.ok { m_type := mediaTypes.APPLICATION,
           m_subType := mediaTypes.APPLICATION_OCTET_STREAM })

/-- Lines 116-155: the flag `isAttachment` and the pointer `contentDispField` (none for
NULL) computed for a part with header `hdr`. -/
def isAttachment (hdr : header) : Except Exn (Bool × Option (genericField disposition)) :=
  catch_no_such_field
    (match hdr.findContentDisposition with
     | .ok cdf =>
       if cdf.getValue.getName ≠ dispositionTypes.INLINE then .ok (true, some cdf)
       else .ok (false, none)
     | .error e => .error e)
    (match attachmentType hdr with
     | .ok type =>
       if type.getType ≠ mediaTypes.TEXT ∧ type.getType ≠ mediaTypes.MULTIPART then
         .ok (true, none)
       else .ok (false, none)
     | .error e => .error e)

/-- Lines 177-189: the value of the Content-Description field, the empty text when
there is no such field. -/
def attachmentDescription (hdr : header) : Except Exn text :=
  catch_no_such_field
    (match hdr.findContentDescription with
     | .ok cd => .ok cd.getValue
     | .error e => .error e)
    (.ok "")

/-- Lines 111-204: the body of the loop of `findAttachments` for the child `p`, up to
the recursive call. -/
def findAttachmentsStep (p : bodyPart) (mp : messageParser) : Except Exn messageParser :=
  match isAttachment p.getHeader with
  | .error e => .error e
  | .ok (false, _) => .ok mp
  | .ok (true, contentDispField) =>
    match attachmentType p.getHeader with
    | .error e => .error e
    | .ok type =>
      match attachmentDescription p.getHeader with
      | .error e => .error e
      | .ok description =>
        let attach : attachment :=
          { m_data := p.getContents, m_encoding := p.getEncoding, m_type := type,
            m_desc := description }
        let info :=
          match contentDispField with
          | some cdf => mapInsert mp.m_attachInfo mp.m_attach.length cdf.clone
          | none => mp.m_attachInfo
        .ok { mp with m_attachInfo := info, m_attach := mp.m_attach ++ [attach] }

mutual
/-- The member `messageParser::findAttachments (part)`. -/
def findAttachments (part : bodyPart) (mp : messageParser) : Except Exn messageParser :=
  match part with
  | .mk _ _ _ parts => findAttachmentsLoop parts mp
/-- The loop of `findAttachments` over the children that are still to be visited. -/
def findAttachmentsLoop (parts : List bodyPart) (mp : messageParser) :
    Except Exn messageParser :=
  match parts with
  | [] => .ok mp
  | p :: rest =>
    match findAttachmentsStep p mp with
    | .error e => .error e
    | .ok mp1 =>
      match (if p.getPartCount ≠ 0 then findAttachments p mp1 else .ok mp1) with
      | .error e => .error e
      | .ok mp2 => findAttachmentsLoop rest mp2
end

/-- The member `messageParser::getAttachmentInfo (a)`, none for NULL; `a` is the
position of the attachment in the attachment list. -/
def messageParser.getAttachmentInfo (mp : messageParser) (a : Nat) :
    Option (genericField disposition) :=
  mp.m_attachInfo.lookup a

def messageParser.getAttachmentCount (mp : messageParser) : Nat := mp.m_attach.length

def messageParser.getAttachmentAt (mp : messageParser) (pos : Nat) : Option attachment :=
  mp.m_attach[pos]?

def messageParser.getTextPartCount (mp : messageParser) : Nat := mp.m_textParts.length

def messageParser.getTextPartAt (mp : messageParser) (pos : Nat) : Option textPart :=
  mp.m_textParts[pos]?

/-- Lines 219-237: the local variables `type` and `accept` of `findTextParts` for a
message without child parts. -/
def singlePartType (hdr : header) : Except Exn (mediaType × Bool) :=
  catch_no_such_field
    (match hdr.findContentType with
     | .ok ctf =>
       if ctf.getValue.getType = mediaTypes.TEXT then .ok (ctf.getValue, true)
       else .ok ({ m_type := mediaTypes.TEXT, m_subType := mediaTypes.TEXT_PLAIN }, false)
     | .error e => .error e)
    (.ok ({ m_type := mediaTypes.TEXT, m_subType := mediaTypes.TEXT_PLAIN }, true))

/-- Lines 264-282: the local vector `textParts`, the children whose Content-Type has
top-level type text. -/
def collectTextParts : List bodyPart → Except Exn (List bodyPart)
  | [] => .ok []
  | p :: rest =>
    match catch_no_such_field
        (match p.getHeader.findContentType with
         | .ok ctf => .ok (decide (ctf.getValue.getType = mediaTypes.TEXT))
         | .error e => .error e)
        (.ok false) with
    | .error e => .error e
    | .ok isText =>
      match collectTextParts rest with
      | .error e => .error e
      | .ok found => .ok (if isText then p :: found else found)

/-- Lines 287-304: one text part is built for each collected child whose media type
has a registered constructor. -/
def buildTextParts (msg part : bodyPart) :
    List bodyPart → messageParser → Except Exn messageParser
  | [], mp => .ok mp
  | p :: rest, mp =>
    match p.getHeader.findContentType with
    | .error e => .error e
    | .ok ctf =>
      match catch_no_factory_available
          (match textPartFactory.getInstance.create ctf.getValue with
           | .ok kind =>
             .ok { mp with m_textParts := mp.m_textParts ++
                     [{ kind := kind, message := msg, parent := part, part := p }] }
           | .error e => .error e)
          (.ok mp) with
      | .error e => .error e
      | .ok mp1 => buildTextParts msg part rest mp1

mutual
/-- The member `messageParser::findSubTextParts (msg, part)`: the returned flag and the
new state. -/
def findSubTextParts (msg part : bodyPart) (mp : messageParser) :
    Except Exn (Bool × messageParser) :=
  match part with
  | .mk hdr contents encoding parts =>
    match collectTextParts parts with
    | .error e => .error e
    | .ok textParts =>
      match (if textParts.length ≠ 0 then
               buildTextParts msg (.mk hdr contents encoding parts) textParts mp
             else .ok mp) with
      | .error e => .error e
      | .ok mp1 => findSubTextPartsLoop msg parts false mp1
/-- Lines 311-318: the loop `for (i = 0 ; !found && i < getPartCount () ; ++i)` over the
children that are still to be visited. -/
def findSubTextPartsLoop (msg : bodyPart) (parts : List bodyPart) (found : Bool)
    (mp : messageParser) : Except Exn (Bool × messageParser) :=
  match parts with
  | [] => .ok (found, mp)
  | p :: rest =>
    if found then .ok (found, mp)
    else
      match findSubTextParts msg p mp with
      | .error e => .error e
      | .ok (found1, mp1) => findSubTextPartsLoop msg rest found1 mp1
end

/-- The member `messageParser::findTextParts (msg, part)`. -/
def findTextParts (msg part : bodyPart) (mp : messageParser) : Except Exn messageParser :=
  if part.getPartCount = 0 then
    match singlePartType msg.getHeader with
    | .error e => .error e
    | .ok (type, accept) =>
      if accept then
        match textPartFactory.getInstance.create type with
        | .error e => .error e
        | .ok kind =>
          .ok { mp with m_textParts := mp.m_textParts ++
                  [{ kind := kind, message := msg, parent := msg, part := msg }] }
      else .ok mp
  else
    match findSubTextParts msg part mp with
    | .error e => .error e
    | .ok (_, mp1) => .ok mp1

/-- The macro `TRY_FIELD (var, type, name)` of `parse`, given the outcome of the lookup
and cast: the value of the field, `var` unchanged when there is no such field. -/
def TRY_FIELD {α : Type} (var : α) (field : Except Exn (genericField α)) : Except Exn α :=
  catch_no_such_field
    (match field with
     | .ok f => .ok f.getValue
     | .error e => .error e)
    (.ok var)

/-- The expression `dynamic_cast <mailboxField&>(*hdr.findField (name))`. -/
def header.findMailbox (hdr : header) (name : String) : Except Exn (genericField mailbox) :=
  match hdr.findField name with
  | .ok f => f.cast_mailboxField
  | .error e => .error e

/-- The expression `dynamic_cast <addressListField&>(*hdr.findField (name))`. -/
def header.findAddressList (hdr : header) (name : String) :
    Except Exn (genericField addressList) :=
  match hdr.findField name with
  | .ok f => f.cast_addressListField
  | .error e => .error e

/-- The expression `dynamic_cast <textField&>(*hdr.findField (name))`. -/
def header.findText (hdr : header) (name : String) : Except Exn (genericField text) :=
  match hdr.findField name with
  | .ok f => f.cast_textField
  | .error e => .error e

/-- The expression `dynamic_cast <relayField&>(*hdr.findField (fields::RECEIVED))`. -/
def header.findReceived (hdr : header) : Except Exn (genericField relay) :=
  match hdr.findField fields.RECEIVED with
  | .ok f => f.cast_relayField
  | .error e => .error e

/-- The expression `dynamic_cast <dateField&>(*hdr.findField (fields::DATE))`. -/
def header.findDate (hdr : header) : Except Exn (genericField datetime) :=
  match hdr.findField fields.DATE with
  | .ok f => f.cast_dateField
  | .error e => .error e

/-- Lines 75-96 of `parse`: the date of the Received field, else the value of the Date
field, else `datetime::now ()`, which is the argument `now`. -/
def resolveDate (hdr : header) (now : datetime) : Except Exn datetime :=
  catch_no_such_field
    (match hdr.findReceived with
     | .ok recv => .ok recv.getValue.getDate
     | .error e => .error e)
    (catch_no_such_field
      (match hdr.findDate with
       | .ok date => .ok date.getValue
       | .error e => .error e)
      (.ok now))

/-- Lines 60-96 of `parse`: the five envelope fields and the date; `now` is what
`datetime::now ()` returns when it is called. -/
def resolveEnvelope (mp : messageParser) (hdr : header) (now : datetime) :
    Except Exn messageParser :=
  match TRY_FIELD mp.m_from (hdr.findMailbox fields.FROM) with
  | .error e => .error e
  | .ok v_from =>
  match TRY_FIELD mp.m_to (hdr.findAddressList fields.TO) with
  | .error e => .error e
  | .ok v_to =>
  match TRY_FIELD mp.m_cc (hdr.findAddressList fields.CC) with
  | .error e => .error e
  | .ok v_cc =>
  match TRY_FIELD mp.m_bcc (hdr.findAddressList fields.BCC) with
  | .error e => .error e
  | .ok v_bcc =>
  match TRY_FIELD mp.m_subject (hdr.findText fields.SUBJECT) with
  | .error e => .error e
  | .ok v_subject =>
  match resolveDate hdr now with
  | .error e => .error e
  | .ok v_date =>
    .ok { mp with m_from := v_from, m_to := v_to, m_cc := v_cc, m_bcc := v_bcc,
                  m_subject := v_subject, m_date := v_date }

/-- The member `messageParser::parse (msg)`: the envelope, then the attachments, then
the text parts. -/
def messageParser.parse (mp : messageParser) (msg : message) (now : datetime) :
    Except Exn messageParser :=
  match resolveEnvelope mp msg.getHeader now with
  | .error e => .error e
  | .ok mp0 =>
    match findAttachments msg mp0 with
    | .error e => .error e
    | .ok mp1 => findTextParts msg msg mp1

/-- The constructor `messageParser::messageParser (const message& msg)`. -/
def messageParser.new (msg : message) (now : datetime) : Except Exn messageParser :=
  messageParser.init.parse msg now

/-! ## Vocabulary of the specification -/

mutual
/-- The parts strictly below `part`, in depth-first pre-order: a part before its own
children, siblings in index order. -/
def bodyPart.subParts : bodyPart → List bodyPart
  | .mk _ _ _ parts => subPartsList parts
/-- The parts of a list of siblings and everything below them, in depth-first
pre-order. -/
def subPartsList : List bodyPart → List bodyPart
  | [] => []
  | p :: rest => p :: (p.subParts ++ subPartsList rest)
end

/-- The media type of a part as the specification resolves it: the value of the
Content-Type field, `application/octet-stream` when the field is absent. -/
def bodyPart.typeOrDefault (p : bodyPart) : mediaType :=
  match p.getHeader.findContentType with
  | .ok ctf => ctf.getValue
  | .error _ =>
    { m_type := mediaTypes.APPLICATION, m_subType := mediaTypes.APPLICATION_OCTET_STREAM }

/-- The description of a part as the specification resolves it: the value of the
Content-Description field, the empty text when the field is absent. -/
def bodyPart.descriptionOrEmpty (p : bodyPart) : text :=
  match p.getHeader.findContentDescription with
  | .ok cd => cd.getValue
  | .error _ => ""

/-- The attachment rule of the specification: a Content-Disposition field is present
and its name is not inline, or no Content-Disposition field is present and the
top-level media type is neither text nor multipart. -/
def bodyPart.attachmentRule (p : bodyPart) : Bool :=
  match p.getHeader.findContentDisposition with
  | .ok cdf => decide (cdf.getValue.getName ≠ dispositionTypes.INLINE)
  | .error _ =>
    decide (p.typeOrDefault.getType ≠ mediaTypes.TEXT ∧
      p.typeOrDefault.getType ≠ mediaTypes.MULTIPART)

/-- The attachment the specification derives from a part: body contents, encoding,
media type and description. -/
def bodyPart.attachmentOf (p : bodyPart) : attachment :=
  { m_data := p.getContents, m_encoding := p.getEncoding, m_type := p.typeOrDefault,
    m_desc := p.descriptionOrEmpty }

/-- The provenance the specification keeps with an attachment: the copy of the
Content-Disposition field that justified the classification, none when the
classification was inferred from the media type. -/
def bodyPart.provenanceOf (p : bodyPart) : Option (genericField disposition) :=
  match p.getHeader.findContentDisposition with
  | .ok cdf => if cdf.getValue.getName ≠ dispositionTypes.INLINE then some cdf.clone else none
  | .error _ => none

/-- Whether a lookup-and-cast ended in `std::bad_cast`. -/
def isBadCast {α : Type} : Except Exn α → Bool
  | .error .bad_cast => true
  | _ => false

/-- The three fields the tree walkers read from a part header (Content-Disposition,
Content-Type, Content-Description) each are absent or of their own field class. -/
def header.castsOk (hdr : header) : Bool :=
  !isBadCast hdr.findContentDisposition && !isBadCast hdr.findContentType &&
    !isBadCast hdr.findContentDescription

/-- Every part strictly below `part` has a header whose three fields are castable. -/
def bodyPart.subPartsTyped (part : bodyPart) : Bool :=
  part.subParts.all (fun p => p.getHeader.castsOk)

/-- The state after `push_back (attach)` and, for a provenance field, the insertion
into `m_attachInfo` under the new attachment. -/
def messageParser.pushAttachment (mp : messageParser) (p : bodyPart) : messageParser :=
  { mp with
    m_attachInfo :=
      match p.provenanceOf with
      | some cdf => mapInsert mp.m_attachInfo mp.m_attach.length cdf
      | none => mp.m_attachInfo
    m_attach := mp.m_attach ++ [p.attachmentOf] }

/-- The state after the attachments of the parts `ps` were added in order. -/
def messageParser.pushAttachments (mp : messageParser) (ps : List bodyPart) :
    messageParser :=
  ps.foldl messageParser.pushAttachment mp

/-- No provenance entry is keyed by a position at or past the end of `m_attach`. -/
def messageParser.keysBelow (mp : messageParser) : Prop :=
  ∀ k, mp.m_attach.length ≤ k → mp.m_attachInfo.lookup k = none

/-- A part whose Content-Type field is present with top-level type text: the parts the
specification calls text-labelled. -/
def bodyPart.isTextChild (p : bodyPart) : Bool :=
  match p.getHeader.findContentType with
  | .ok ctf => decide (ctf.getValue.getType = mediaTypes.TEXT)
  | .error _ => false

/-- The text-part constructor registered for the media type of a part, none when the
media type has no registered constructor (or the part has no Content-Type). -/
def bodyPart.registeredKind (p : bodyPart) : Option textPartKind :=
  match p.getHeader.findContentType with
  | .ok ctf =>
    match textPartFactory.getInstance.create ctf.getValue with
    | .ok kind => some kind
    | .error _ => none
  | .error _ => none

/-- The text part the specification derives from the child `p` of `parent`: one text
part when the media type of `p` is registered, none otherwise. -/
def textPartOf (msg parent p : bodyPart) : Option textPart :=
  match p.registeredKind with
  | some kind => some { kind := kind, message := msg, parent := parent, part := p }
  | none => none

/-- The text parts of one level: one for each immediate text-labelled child of `part`
with a registered media type, in child order. -/
def levelTextParts (msg part : bodyPart) : List textPart :=
  (part.getParts.filter bodyPart.isTextChild).filterMap (textPartOf msg part)

mutual
/-- The text parts of every level at and below `part`, container by container in
pre-order: those of the level first, then those found inside each child in order. -/
def allTextParts (msg : bodyPart) : bodyPart → List textPart
  | .mk h c e parts => levelTextParts msg (.mk h c e parts) ++ allTextPartsList msg parts
/-- The text parts found inside each part of a list of siblings, in order. -/
def allTextPartsList (msg : bodyPart) : List bodyPart → List textPart
  | [] => []
  | p :: rest => allTextParts msg p ++ allTextPartsList msg rest
end

/-- The state after the text parts `tps` were appended to `m_textParts`. -/
def messageParser.addTextParts (mp : messageParser) (tps : List textPart) : messageParser :=
  { mp with m_textParts := mp.m_textParts ++ tps }

/-- The Content-Type field of a header is absent or of its own field class. -/
def header.contentTypeOk (hdr : header) : Bool := !isBadCast hdr.findContentType

/-- Every part strictly below `part` has a castable Content-Type field. -/
def bodyPart.subPartsContentTyped (part : bodyPart) : Bool :=
  part.subParts.all (fun p => p.getHeader.contentTypeOk)

/-- Every immediate child of `part` has a castable Content-Type field. -/
def bodyPart.childrenContentTyped (part : bodyPart) : Bool :=
  part.getParts.all (fun p => p.getHeader.contentTypeOk)

/-! ## Example messages -/

/-- A Content-Type field with the given media type. -/
def exampleContentType (type subType : String) : headerField :=
  .contentTypeField
    { m_name := fields.CONTENT_TYPE, m_value := { m_type := type, m_subType := subType } }

/-- A Content-Disposition field with the given disposition name. -/
def exampleDisposition (name : String) : genericField disposition :=
  { m_name := fields.CONTENT_DISPOSITION, m_value := { m_name := name } }

/-- A leaf part of type text/plain without disposition. -/
def plainLeaf : bodyPart :=
  .mk { m_fields := [exampleContentType "text" "plain"] } "Hello" "7bit" []

/-- A leaf part of type text/html without disposition. -/
def htmlLeaf : bodyPart :=
  .mk { m_fields := [exampleContentType "text" "html"] } "<p>Hello</p>" "7bit" []

/-- A leaf part of type image/jpeg without disposition. -/
def jpegLeaf : bodyPart :=
  .mk { m_fields := [exampleContentType "image" "jpeg"] } "/9j/4AAQ" "base64" []

/-- A leaf part of type application/pdf with disposition attachment. -/
def pdfLeaf : bodyPart :=
  .mk { m_fields := [exampleContentType "application" "pdf",
                     .contentDispositionField (exampleDisposition "attachment")] }
    "JVBERi0x" "base64" []

/-- A multipart/mixed message: text/plain, image/jpeg, application/pdf. -/
def mixedMessage : bodyPart :=
  .mk { m_fields := [exampleContentType "multipart" "mixed"] } "" "7bit"
    [plainLeaf, jpegLeaf, pdfLeaf]

/-- A single-part message of type image/jpeg without disposition. -/
def jpegMessage : bodyPart :=
  .mk { m_fields := [exampleContentType "image" "jpeg"] } "/9j/4AAQ" "base64" []

/-- A single-part message of type text/richtext. -/
def richtextMessage : bodyPart :=
  .mk { m_fields := [exampleContentType "text" "richtext"] } "Hello" "7bit" []

/-- A single-part message with an empty header. -/
def bareMessage : bodyPart :=
  .mk { m_fields := [] } "Hello" "7bit" []

/-- A multipart/alternative container holding one text/html part. -/
def htmlContainer : bodyPart :=
  .mk { m_fields := [exampleContentType "multipart" "alternative"] } "" "7bit" [htmlLeaf]

/-- A multipart/mixed message whose level holds a text/plain child and a container with
a text/html part one level deeper. -/
def nestedTextMessage : bodyPart :=
  .mk { m_fields := [exampleContentType "multipart" "mixed"] } "" "7bit"
    [plainLeaf, htmlContainer]

/-- A multipart/alternative container holding text/plain and text/html. -/
def alternativeContainer : bodyPart :=
  .mk { m_fields := [exampleContentType "multipart" "alternative"] } "" "7bit"
    [plainLeaf, htmlLeaf]

/-- A multipart/mixed message without text children whose two children are containers
that both hold text parts. -/
def twoContainersMessage : bodyPart :=
  .mk { m_fields := [exampleContentType "multipart" "mixed"] } "" "7bit"
    [alternativeContainer, htmlContainer]

/-- A leaf part of type text/richtext. -/
def richtextLeaf : bodyPart :=
  .mk { m_fields := [exampleContentType "text" "richtext"] } "Hello" "7bit" []

/-- A multipart/mixed level with three text children, the middle one unregistered. -/
def threeTextsMessage : bodyPart :=
  .mk { m_fields := [exampleContentType "multipart" "mixed"] } "" "7bit"
    [plainLeaf, richtextLeaf, htmlLeaf]

/-- A multipart/mixed message with a text/plain child and an application/pdf child with
disposition attachment. -/
def textAndPdfMessage : bodyPart :=
  .mk { m_fields := [exampleContentType "multipart" "mixed"] } "" "7bit"
    [plainLeaf, pdfLeaf]

/-! ## Envelope accessors and the envelope vocabulary -/

/-- The member `messageParser::getExpeditor`. -/
def messageParser.getExpeditor (mp : messageParser) : mailbox := mp.m_from

/-- The member `messageParser::getRecipients`. -/
def messageParser.getRecipients (mp : messageParser) : addressList := mp.m_to

/-- The member `messageParser::getCopyRecipients`. -/
def messageParser.getCopyRecipients (mp : messageParser) : addressList := mp.m_cc

/-- The member `messageParser::getBlindCopyRecipients`. -/
def messageParser.getBlindCopyRecipients (mp : messageParser) : addressList := mp.m_bcc

/-- The member `messageParser::getSubject`. -/
def messageParser.getSubject (mp : messageParser) : text := mp.m_subject

/-- The member `messageParser::getDate`. -/
def messageParser.getDate (mp : messageParser) : datetime := mp.m_date

/-- Each field the envelope stage reads (From, To, Cc, Bcc, Subject, Received, and Date
when there is no Received field) is absent or of its own field class. -/
def header.envelopeOk (hdr : header) (now : datetime) : Bool :=
  !isBadCast (hdr.findMailbox fields.FROM) && !isBadCast (hdr.findAddressList fields.TO) &&
    !isBadCast (hdr.findAddressList fields.CC) &&
    !isBadCast (hdr.findAddressList fields.BCC) &&
    !isBadCast (hdr.findText fields.SUBJECT) && !isBadCast (resolveDate hdr now)

/-- A Received field carrying the given date. -/
def exampleReceived (date : datetime) : headerField :=
  .relayField
    { m_name := fields.RECEIVED,
      m_value := { m_from := "mx.example.org", m_by := "mail.example.org", m_date := date } }

/-- A Date field carrying the given date. -/
def exampleDateField (date : datetime) : headerField :=
  .dateField { m_name := fields.DATE, m_value := date }

/-- The date 2004-10-05 12:30:00. -/
def exampleDate : datetime :=
  { m_year := 2004, m_month := 10, m_day := 5, m_hour := 12, m_minute := 30, m_second := 0,
    m_zone := 0 }

/-- The date 2004-10-06 08:00:00. -/
def otherDate : datetime :=
  { m_year := 2004, m_month := 10, m_day := 6, m_hour := 8, m_minute := 0, m_second := 0,
    m_zone := 0 }

/-- The mailbox of the example sender. -/
def exampleSender : mailbox := { m_name := "Ann", m_email := "ann@example.org" }

/-- The address of the example recipient. -/
def exampleRecipient : address :=
  .mailbox { m_name := "Bob", m_email := "bob@example.org" }

/-- A single-part message with both a Received field and a Date field. -/
def receivedAndDateMessage : bodyPart :=
  .mk { m_fields := [exampleReceived exampleDate, exampleDateField otherDate] }
    "Hello" "7bit" []

/-- A single-part message with a Date field and no Received field. -/
def dateOnlyMessage : bodyPart :=
  .mk { m_fields := [exampleDateField otherDate] } "Hello" "7bit" []

/-- A single-part message whose Received field holds a date that does not come from its
date text (the text could not be parsed and the relay holds the epoch), followed by a Date
field. -/
def unparsedReceivedMessage : bodyPart :=
  .mk { m_fields := [exampleReceived datetime.zero, exampleDateField otherDate] }
    "Hello" "7bit" []

/-- A single-part message with From, To and Subject fields of their own classes. -/
def envelopeMessage : bodyPart :=
  .mk { m_fields :=
          [.mailboxField { m_name := fields.FROM, m_value := exampleSender },
           .addressListField { m_name := fields.TO, m_value := [exampleRecipient] },
           .textField { m_name := fields.SUBJECT, m_value := "Greetings" }] }
    "Hello" "7bit" []

/-- A single-part message whose From field is a text field, not a mailbox field. -/
def textFromMessage : bodyPart :=
  .mk { m_fields := [.textField { m_name := fields.FROM, m_value := "Ann" }] }
    "Hello" "7bit" []

/-- Two parser states hold the same envelope values. -/
def messageParser.sameEnvelope (a b : messageParser) : Prop :=
  a.m_from = b.m_from ∧ a.m_to = b.m_to ∧ a.m_cc = b.m_cc ∧ a.m_bcc = b.m_bcc ∧
    a.m_subject = b.m_subject ∧ a.m_date = b.m_date

/-! ## Folder listeners (src/src/messaging/folder.cpp) -/

/-- A pointer to a listener object: the identity of the listener. -/
abbrev listenerPtr := Nat

/-- An event handed to `notify`; the folder only passes it on to `dispatch`. -/
abbrev folderEventId := Nat

/-- The loop of the standard algorithm `std::remove (first, last, value)`, after `first`
was advanced to the first element equal to `value`: `i` reads the `n` positions that
follow, `result` is the position written next, and an element other than `value` is
assigned to `*result`.  Elements are pointers, so a moved-from position keeps what it
held. -/
def std_remove_loop (value : Nat) : Nat → Nat → Nat → List Nat → List Nat
  | 0, _, _, buf => buf
  | n + 1, i, result, buf =>
    match buf[i]? with
    | none => buf
    | some x =>
      if x ≠ value then std_remove_loop value n (i + 1) (result + 1) (buf.set result x)
      else std_remove_loop value n (i + 1) result buf

/-- The contents of a container after the call `std::remove (c.begin (), c.end (),
value)` whose returned iterator is dropped, as every caller in folder.cpp does: the
container keeps its size. -/
def std_remove (xs : List Nat) (value : Nat) : List Nat :=
  let first := (xs.takeWhile (fun x => x != value)).length
  if first = xs.length then xs
  else std_remove_loop value (xs.length - (first + 1)) (first + 1) first xs

/-- The three listener lists of a `folder`. -/
structure folder where
  m_messageChangedListeners : List listenerPtr
  m_messageCountListeners : List listenerPtr
  m_folderListeners : List listenerPtr
  deriving DecidableEq, Repr

/-- A folder whose listener lists are as default-constructed. -/
def folder.init : folder :=
  { m_messageChangedListeners := [], m_messageCountListeners := [], m_folderListeners := [] }

/-- The member `folder::addMessageChangedListener`. -/
def folder.addMessageChangedListener (f : folder) (l : listenerPtr) : folder :=
  { f with m_messageChangedListeners := f.m_messageChangedListeners ++ [l] }

/-- The member `folder::removeMessageChangedListener`. -/
def folder.removeMessageChangedListener (f : folder) (l : listenerPtr) : folder :=
  { f with m_messageChangedListeners := std_remove f.m_messageChangedListeners l }

/-- The member `folder::notifyMessageChanged`: the calls `event.dispatch (*it)` it makes,
in order. -/
def folder.notifyMessageChanged (f : folder) (event : folderEventId) :
    List (folderEventId × listenerPtr) :=
  f.m_messageChangedListeners.map (fun l => (event, l))

/-- The member `folder::addMessageCountListener`. -/
def folder.addMessageCountListener (f : folder) (l : listenerPtr) : folder :=
  { f with m_messageCountListeners := f.m_messageCountListeners ++ [l] }

/-- The member `folder::removeMessageCountListener`. -/
def folder.removeMessageCountListener (f : folder) (l : listenerPtr) : folder :=
  { f with m_messageCountListeners := std_remove f.m_messageCountListeners l }

/-- The member `folder::notifyMessageCount`: the calls `event.dispatch (*it)` it makes, in
order. -/
def folder.notifyMessageCount (f : folder) (event : folderEventId) :
    List (folderEventId × listenerPtr) :=
  f.m_messageCountListeners.map (fun l => (event, l))

/-- The member `folder::addFolderListener`. -/
def folder.addFolderListener (f : folder) (l : listenerPtr) : folder :=
  { f with m_folderListeners := f.m_folderListeners ++ [l] }

/-- The member `folder::removeFolderListener`. -/
def folder.removeFolderListener (f : folder) (l : listenerPtr) : folder :=
  { f with m_folderListeners := std_remove f.m_folderListeners l }

/-- The member `folder::notifyFolder`: the calls `event.dispatch (*it)` it makes, in
order. -/
def folder.notifyFolder (f : folder) (event : folderEventId) :
    List (folderEventId × listenerPtr) :=
  f.m_folderListeners.map (fun l => (event, l))

/-! ## Address lists (src/vmime/addressList.hpp) -/

/-- A pointer to an address object: the identity of the address. -/
abbrev addressPtr := Nat

/-- The exception class `exceptions::no_such_address`. -/
inductive AddressExn where
  | no_such_address
  deriving DecidableEq, Repr

/-- Modelled from the spec: addressList.cpp is not under src, only the declarations of
addressList.hpp and their documentation are.  The spec has `insertAddressBefore (anchor,
x)` place `x` immediately before the current position of `anchor`, and fail with the
no-such-address condition, leaving the list unmodified, when `anchor` is not a member
by identity.  The result is the outcome of the call and the list `m_list` after it. -/
def addressList.insertAddressBefore (m_list : List addressPtr)
    (beforeAddress addr : addressPtr) : Except AddressExn Unit × List addressPtr :=
  if beforeAddress ∈ m_list then
    (.ok (), m_list.takeWhile (fun a => a != beforeAddress) ++
      addr :: m_list.dropWhile (fun a => a != beforeAddress))
  else (.error .no_such_address, m_list)

/-- Modelled from the spec: addressList.cpp is not under src.  As `insertAddressBefore`,
with the new address placed immediately after the anchor. -/
def addressList.insertAddressAfter (m_list : List addressPtr)
    (afterAddress addr : addressPtr) : Except AddressExn Unit × List addressPtr :=
  if afterAddress ∈ m_list then
    (.ok (), m_list.takeWhile (fun a => a != afterAddress) ++
      afterAddress :: addr :: (m_list.dropWhile (fun a => a != afterAddress)).drop 1)
  else (.error .no_such_address, m_list)

/-- Modelled from the spec: addressList.cpp is not under src.  The address is taken out
of the list; the call fails with the no-such-address condition, leaving the list
unmodified, when the address is not a member by identity. -/
def addressList.removeAddress (m_list : List addressPtr) (addr : addressPtr) :
    Except AddressExn Unit × List addressPtr :=
  if addr ∈ m_list then (.ok (), m_list.erase addr)
  else (.error .no_such_address, m_list)

/-! ## Vocabulary and examples for the remaining classification properties -/

/-- A part that yields a text part: its Content-Type top-level type is text and its media
type has a registered constructor. -/
def bodyPart.qualifiesAsText (p : bodyPart) : Bool :=
  p.isTextChild && p.registeredKind.isSome

/-- The descent over the children of a container in which no child is ever skipped:
`findSubTextParts` is run on every child in order, whatever flag it returns, and only
an exception ends the walk. -/
def visitEveryChild (msg : bodyPart) : List bodyPart → messageParser → Except Exn messageParser
  | [], mp => .ok mp
  | p :: rest, mp =>
    match findSubTextParts msg p mp with
    | .error e => .error e
    | .ok (_, mp1) => visitEveryChild msg rest mp1

/-- A leaf part of type image/jpeg with disposition inline. -/
def inlineJpegLeaf : bodyPart :=
  .mk { m_fields := [exampleContentType "image" "jpeg",
                     .contentDispositionField (exampleDisposition "inline")] }
    "/9j/4AAQ" "base64" []

/-- A multipart/related message: text/html and an inline image. -/
def inlineImageMessage : bodyPart :=
  .mk { m_fields := [exampleContentType "multipart" "related"] } "" "7bit"
    [htmlLeaf, inlineJpegLeaf]

/-- A leaf part of type application/pdf with disposition attachment and a description. -/
def describedPdfLeaf : bodyPart :=
  .mk { m_fields := [exampleContentType "application" "pdf",
                     .contentDispositionField (exampleDisposition "attachment"),
                     .textField { m_name := fields.CONTENT_DESCRIPTION,
                                  m_value := "The report" }] }
    "JVBERi0x" "base64" []

/-- A single-part message of type text/html. -/
def htmlMessage : bodyPart :=
  .mk { m_fields := [exampleContentType "text" "html"] } "<p>Hello</p>" "7bit" []

/-- A leaf part of type text/plain with disposition attachment. -/
def attachedTextLeaf : bodyPart :=
  .mk { m_fields := [exampleContentType "text" "plain",
                     .contentDispositionField (exampleDisposition "attachment")] }
    "Notes" "7bit" []

/-- A multipart/mixed message: text/html and an attached text/plain part. -/
def attachedTextMessage : bodyPart :=
  .mk { m_fields := [exampleContentType "multipart" "mixed"] } "" "7bit"
    [htmlLeaf, attachedTextLeaf]

/-- The attachment `a` is built from the part `p` as the specification says: from the
body contents and the body encoding of `p`, with the value of the Content-Type field of
`p` as media type, application/octet-stream when that field is absent, and the value of
the Content-Description field of `p` as description, the empty text when that field is
absent. -/
def attachment.builtFrom (a : attachment) (p : bodyPart) : Prop :=
  a.m_data = p.getContents ∧ a.m_encoding = p.getEncoding ∧
    ((∃ ctf, p.getHeader.findContentType = .ok ctf ∧ a.m_type = ctf.getValue) ∨
      (p.getHeader.findField fields.CONTENT_TYPE = .error .no_such_field ∧
        a.m_type =
          { m_type := mediaTypes.APPLICATION,
            m_subType := mediaTypes.APPLICATION_OCTET_STREAM })) ∧
    ((∃ cd, p.getHeader.findContentDescription = .ok cd ∧ a.m_desc = cd.getValue) ∨
      (p.getHeader.findField fields.CONTENT_DESCRIPTION = .error .no_such_field ∧
        a.m_desc = ""))

/-- A multipart/mixed message: text/plain, image/jpeg, and a described application/pdf
attachment. -/
def describedMessage : bodyPart :=
  .mk { m_fields := [exampleContentType "multipart" "mixed"] } "" "7bit"
    [plainLeaf, jpegLeaf, describedPdfLeaf]

end vmime

/-! ## Lemmas -/

namespace vmime

theorem findField_cases (hdr : header) (name : String) :
    (∃ f, hdr.findField name = .ok f) ∨ hdr.findField name = .error .no_such_field := by
  unfold header.findField
  cases hdr.m_fields.find? (fun f => toLower f.getName == toLower name) <;> simp

theorem findContentDisposition_cases (hdr : header) :
    (∃ f, hdr.findContentDisposition = .ok f) ∨
      hdr.findContentDisposition = .error .no_such_field ∨
      hdr.findContentDisposition = .error .bad_cast := by
  unfold header.findContentDisposition
  rcases findField_cases hdr fields.CONTENT_DISPOSITION with ⟨f, hf⟩ | hf <;> rw [hf]
  · cases f <;> simp [headerField.cast_contentDispositionField]
  · simp

theorem findContentType_cases (hdr : header) :
    (∃ f, hdr.findContentType = .ok f) ∨
      hdr.findContentType = .error .no_such_field ∨
      hdr.findContentType = .error .bad_cast := by
  unfold header.findContentType
  rcases findField_cases hdr fields.CONTENT_TYPE with ⟨f, hf⟩ | hf <;> rw [hf]
  · cases f <;> simp [headerField.cast_contentTypeField]
  · simp

theorem findContentDescription_cases (hdr : header) :
    (∃ f, hdr.findContentDescription = .ok f) ∨
      hdr.findContentDescription = .error .no_such_field ∨
      hdr.findContentDescription = .error .bad_cast := by
  unfold header.findContentDescription
  rcases findField_cases hdr fields.CONTENT_DESCRIPTION with ⟨f, hf⟩ | hf <;> rw [hf]
  · cases f <;> simp [headerField.cast_textField]
  · simp

/-- The loop body of `findAttachments` on a part whose three fields are castable: the
part is pushed exactly when it satisfies the attachment rule. -/
theorem findAttachmentsStep_eq (p : bodyPart) (mp : messageParser)
    (h : p.getHeader.castsOk = true) :
    findAttachmentsStep p mp =
      .ok (if p.attachmentRule then mp.pushAttachment p else mp) := by
  unfold header.castsOk at h
  simp only [Bool.and_eq_true, Bool.not_eq_true'] at h
  obtain ⟨⟨h1, h2⟩, h3⟩ := h
  unfold findAttachmentsStep isAttachment attachmentType attachmentDescription
    bodyPart.attachmentRule messageParser.pushAttachment bodyPart.provenanceOf
    bodyPart.attachmentOf bodyPart.typeOrDefault bodyPart.descriptionOrEmpty
  rcases findContentDisposition_cases p.getHeader with ⟨cdf, hcd⟩ | hcd | hcd <;>
  rcases findContentType_cases p.getHeader with ⟨ctf, hct⟩ | hct | hct <;>
  rcases findContentDescription_cases p.getHeader with ⟨cd, hde⟩ | hde | hde <;>
  simp only [hcd, hct, hde] at h1 h2 h3 ⊢ <;>
  simp [catch_no_such_field, isBadCast] at h1 h2 h3 ⊢ <;>
  (split_ifs <;> simp_all)

theorem subParts_mk (h : header) (c e : String) (ps : List bodyPart) :
    (bodyPart.mk h c e ps).subParts = subPartsList ps := by
  simp [bodyPart.subParts]

theorem subParts_eq (p : bodyPart) : p.subParts = subPartsList p.getParts := by
  cases p; simp [bodyPart.subParts, bodyPart.getParts]

theorem pushAttachments_append (mp : messageParser) (xs ys : List bodyPart) :
    mp.pushAttachments (xs ++ ys) = (mp.pushAttachments xs).pushAttachments ys := by
  simp [messageParser.pushAttachments, List.foldl_append]

mutual
/-- The walk of `findAttachments` adds the attachments of the classified parts below
`part`, in pre-order, when no cast fails. -/
theorem findAttachments_eq (part : bodyPart) (mp : messageParser)
    (h : ∀ q ∈ part.subParts, q.getHeader.castsOk = true) :
    findAttachments part mp =
      .ok (mp.pushAttachments (part.subParts.filter bodyPart.attachmentRule)) := by
  cases part with
  | mk hd c e parts =>
    rw [findAttachments, subParts_mk]
    rw [subParts_mk] at h
    exact findAttachmentsLoop_eq parts mp h
/-- The loop of `findAttachments` over a list of siblings, likewise. -/
theorem findAttachmentsLoop_eq (parts : List bodyPart) (mp : messageParser)
    (h : ∀ q ∈ subPartsList parts, q.getHeader.castsOk = true) :
    findAttachmentsLoop parts mp =
      .ok (mp.pushAttachments ((subPartsList parts).filter bodyPart.attachmentRule)) := by
  cases parts with
  | nil => simp [findAttachmentsLoop, subPartsList, messageParser.pushAttachments]
  | cons p rest =>
    rw [findAttachmentsLoop, subPartsList]
    rw [subPartsList] at h
    have hp : p.getHeader.castsOk = true := h p (by simp)
    have hsub : ∀ q ∈ p.subParts, q.getHeader.castsOk = true :=
      fun q hq => h q (by simp [hq])
    have hrest : ∀ q ∈ subPartsList rest, q.getHeader.castsOk = true :=
      fun q hq => h q (by simp [hq])
    rw [findAttachmentsStep_eq p mp hp]
    have hrec := fun mp1 => findAttachments_eq p mp1 hsub
    have hloop := fun mp2 => findAttachmentsLoop_eq rest mp2 hrest
    have hzero : p.getPartCount = 0 → p.subParts = [] := by
      intro h0
      rw [subParts_eq]
      have : p.getParts = [] := List.length_eq_zero.mp h0
      rw [this, subPartsList]
    by_cases hr : p.attachmentRule = true <;> by_cases hc : p.getPartCount = 0 <;>
      simp [hr, hc, hrec, hloop, hzero, List.filter_cons, List.filter_append,
        pushAttachments_append, messageParser.pushAttachments]
end

theorem pushAttachment_attach (mp : messageParser) (p : bodyPart) :
    (mp.pushAttachment p).m_attach = mp.m_attach ++ [p.attachmentOf] := rfl

theorem pushAttachment_textParts (mp : messageParser) (p : bodyPart) :
    (mp.pushAttachment p).m_textParts = mp.m_textParts := rfl

theorem pushAttachment_lookup (mp : messageParser) (p : bodyPart) (hk : mp.keysBelow)
    (k : Nat) :
    (mp.pushAttachment p).m_attachInfo.lookup k =
      if k = mp.m_attach.length then p.provenanceOf else mp.m_attachInfo.lookup k := by
  have hnone : mp.m_attachInfo.lookup mp.m_attach.length = none := hk _ (Nat.le_refl _)
  unfold messageParser.pushAttachment
  cases hprov : p.provenanceOf with
  | none =>
    by_cases hkk : k = mp.m_attach.length
    · simp [hkk, hnone]
    · simp [hkk]
  | some cdf =>
    simp only [mapInsert, hnone, List.lookup_append]
    by_cases hkk : k = mp.m_attach.length
    · simp [hkk, hnone]
    · have hb : (k == mp.m_attach.length) = false := by simpa using hkk
      simp [hkk, List.lookup_cons, hb]

theorem pushAttachment_keysBelow (mp : messageParser) (p : bodyPart) (hk : mp.keysBelow) :
    (mp.pushAttachment p).keysBelow := by
  intro k hle
  rw [pushAttachment_lookup mp p hk k]
  rw [pushAttachment_attach] at hle
  simp at hle
  have : k ≠ mp.m_attach.length := by omega
  rw [if_neg this]
  exact hk k (by omega)

theorem pushAttachments_cons (mp : messageParser) (p : bodyPart) (ps : List bodyPart) :
    mp.pushAttachments (p :: ps) = (mp.pushAttachment p).pushAttachments ps := rfl

theorem pushAttachments_attach (mp : messageParser) (ps : List bodyPart) :
    (mp.pushAttachments ps).m_attach = mp.m_attach ++ ps.map bodyPart.attachmentOf := by
  induction ps generalizing mp with
  | nil => simp [messageParser.pushAttachments]
  | cons p ps ih => rw [pushAttachments_cons, ih, pushAttachment_attach]; simp

theorem pushAttachments_textParts (mp : messageParser) (ps : List bodyPart) :
    (mp.pushAttachments ps).m_textParts = mp.m_textParts := by
  induction ps generalizing mp with
  | nil => simp [messageParser.pushAttachments]
  | cons p ps ih => rw [pushAttachments_cons, ih, pushAttachment_textParts]

theorem pushAttachments_lookup_old (mp : messageParser) (ps : List bodyPart)
    (hk : mp.keysBelow) (k : Nat) (hlt : k < mp.m_attach.length) :
    (mp.pushAttachments ps).m_attachInfo.lookup k = mp.m_attachInfo.lookup k := by
  induction ps generalizing mp with
  | nil => simp [messageParser.pushAttachments]
  | cons p ps ih =>
    rw [pushAttachments_cons, ih (mp.pushAttachment p) (pushAttachment_keysBelow mp p hk)
      (by rw [pushAttachment_attach]; simp; omega), pushAttachment_lookup mp p hk k]
    have : k ≠ mp.m_attach.length := by omega
    simp [this]

/-- After the attachments of `ps` were pushed, the provenance recorded for the `i`-th of
them is the one of the `i`-th part. -/
theorem pushAttachments_info (mp : messageParser) (ps : List bodyPart) (hk : mp.keysBelow)
    (i : Nat) (q : bodyPart) (hq : ps[i]? = some q) :
    (mp.pushAttachments ps).getAttachmentInfo (mp.m_attach.length + i) = q.provenanceOf := by
  unfold messageParser.getAttachmentInfo
  induction ps generalizing mp i with
  | nil => simp at hq
  | cons p ps ih =>
    rw [pushAttachments_cons]
    cases i with
    | zero =>
      simp at hq
      subst hq
      rw [Nat.add_zero, pushAttachments_lookup_old _ _ (pushAttachment_keysBelow mp p hk) _
        (by rw [pushAttachment_attach]; simp), pushAttachment_lookup mp p hk]
      simp
    | succ j =>
      simp at hq
      have := ih (mp.pushAttachment p) (pushAttachment_keysBelow mp p hk) j hq
      rw [pushAttachment_attach] at this
      simp at this
      rw [← this]
      congr 1
      omega

theorem addTextParts_nil (mp : messageParser) : mp.addTextParts [] = mp := by
  simp [messageParser.addTextParts]

theorem addTextParts_add (mp : messageParser) (xs ys : List textPart) :
    (mp.addTextParts xs).addTextParts ys = mp.addTextParts (xs ++ ys) := by
  simp [messageParser.addTextParts]

theorem collectTextParts_eq (ps : List bodyPart)
    (h : ∀ p ∈ ps, p.getHeader.contentTypeOk = true) :
    collectTextParts ps = .ok (ps.filter bodyPart.isTextChild) := by
  induction ps with
  | nil => simp [collectTextParts]
  | cons p rest ih =>
    have hp := h p (by simp)
    have hrest := ih (fun q hq => h q (by simp [hq]))
    unfold header.contentTypeOk at hp
    rw [collectTextParts, hrest]
    rcases findContentType_cases p.getHeader with ⟨ctf, hct⟩ | hct | hct <;>
      simp [hct, isBadCast, catch_no_such_field, bodyPart.isTextChild, List.filter_cons] at hp ⊢

theorem buildTextParts_eq (msg part : bodyPart) (cands : List bodyPart) (mp : messageParser)
    (h : ∀ p ∈ cands, p.isTextChild = true) :
    buildTextParts msg part cands mp =
      .ok (mp.addTextParts (cands.filterMap (textPartOf msg part))) := by
  induction cands generalizing mp with
  | nil => simp [buildTextParts, addTextParts_nil]
  | cons p rest ih =>
    have hp := h p (by simp)
    have hrest := fun mp1 => ih mp1 (fun q hq => h q (by simp [hq]))
    unfold bodyPart.isTextChild at hp
    rw [buildTextParts]
    rcases findContentType_cases p.getHeader with ⟨ctf, hct⟩ | hct | hct <;>
      simp [hct] at hp ⊢
    unfold textPartFactory.create
    cases hl : textPartFactory.getInstance.m_nameMap.lookup ctf.getValue.generate with
    | none =>
      simp [catch_no_factory_available, hrest, textPartOf, bodyPart.registeredKind, hct,
        textPartFactory.create, hl]
    | some k =>
      simp [catch_no_factory_available, hrest, textPartOf, bodyPart.registeredKind, hct,
        textPartFactory.create, hl, List.filterMap_cons, addTextParts_add]
      simp [messageParser.addTextParts]

theorem mem_subPartsList_of_mem (ps : List bodyPart) (p : bodyPart) (h : p ∈ ps) :
    p ∈ subPartsList ps := by
  induction ps with
  | nil => simp at h
  | cons q rest ih =>
    rw [subPartsList]
    rcases List.mem_cons.mp h with rfl | h
    · simp
    · simp [ih h]

theorem filter_isTextChild_all (ps : List bodyPart) :
    ∀ p ∈ ps.filter bodyPart.isTextChild, p.isTextChild = true := by
  intro p hp
  exact (List.mem_filter.mp hp).2

mutual
/-- The walk of `findSubTextParts` returns false and appends the text parts of every
level at and below `part`, when no cast fails. -/
theorem findSubTextParts_eq (msg part : bodyPart) (mp : messageParser)
    (h : ∀ q ∈ part.subParts, q.getHeader.contentTypeOk = true) :
    findSubTextParts msg part mp = .ok (false, mp.addTextParts (allTextParts msg part)) := by
  cases part with
  | mk hd c e parts =>
    rw [subParts_mk] at h
    rw [findSubTextParts, allTextParts,
      collectTextParts_eq parts (fun p hp => h p (mem_subPartsList_of_mem parts p hp))]
    simp only []
    rw [buildTextParts_eq msg _ _ mp (filter_isTextChild_all parts)]
    have hloop := fun mp1 => findSubTextPartsLoop_eq msg parts mp1 h
    have hlevel : levelTextParts msg (bodyPart.mk hd c e parts) =
        (parts.filter bodyPart.isTextChild).filterMap
          (textPartOf msg (bodyPart.mk hd c e parts)) := rfl
    by_cases hz : (parts.filter bodyPart.isTextChild).length ≠ 0
    · rw [if_pos hz]
      simp only [hloop, addTextParts_add, hlevel]
    · have hnil : parts.filter bodyPart.isTextChild = [] :=
        List.length_eq_zero.mp (not_not.mp hz)
      rw [if_neg hz]
      simp only [hloop, hlevel, hnil, List.filterMap_nil, List.nil_append]
/-- The descent loop of `findSubTextParts` over a list of siblings, likewise. -/
theorem findSubTextPartsLoop_eq (msg : bodyPart) (parts : List bodyPart) (mp : messageParser)
    (h : ∀ q ∈ subPartsList parts, q.getHeader.contentTypeOk = true) :
    findSubTextPartsLoop msg parts false mp =
      .ok (false, mp.addTextParts (allTextPartsList msg parts)) := by
  cases parts with
  | nil => simp [findSubTextPartsLoop, allTextPartsList, addTextParts_nil]
  | cons p rest =>
    rw [subPartsList] at h
    have hsub : ∀ q ∈ p.subParts, q.getHeader.contentTypeOk = true :=
      fun q hq => h q (by simp [hq])
    have hrest : ∀ q ∈ subPartsList rest, q.getHeader.contentTypeOk = true :=
      fun q hq => h q (by simp [hq])
    rw [findSubTextPartsLoop, allTextPartsList]
    simp only [Bool.false_eq_true, if_false]
    rw [findSubTextParts_eq msg p mp hsub]
    simp only []
    rw [findSubTextPartsLoop_eq msg rest _ hrest, addTextParts_add]
end

/-- The loop body of `findAttachments` on any part: it aborts with `std::bad_cast`, or
the part is pushed exactly when it satisfies the attachment rule. -/
theorem findAttachmentsStep_cases (p : bodyPart) (mp : messageParser) :
    findAttachmentsStep p mp = .error .bad_cast ∨
      findAttachmentsStep p mp =
        .ok (if p.attachmentRule then mp.pushAttachment p else mp) := by
  unfold findAttachmentsStep isAttachment attachmentType attachmentDescription
    bodyPart.attachmentRule messageParser.pushAttachment bodyPart.provenanceOf
    bodyPart.attachmentOf bodyPart.typeOrDefault bodyPart.descriptionOrEmpty
  rcases findContentDisposition_cases p.getHeader with ⟨cdf, hcd⟩ | hcd | hcd <;>
  rcases findContentType_cases p.getHeader with ⟨ctf, hct⟩ | hct | hct <;>
  rcases findContentDescription_cases p.getHeader with ⟨cd, hde⟩ | hde | hde <;>
  simp only [hcd, hct, hde] <;>
  simp [catch_no_such_field] <;>
  (split_ifs <;> simp_all)

mutual
/-- The walk of `findAttachments` on any tree: it aborts with `std::bad_cast`, or it adds
the attachments of the classified parts below `part`, in pre-order. -/
theorem findAttachments_cases (part : bodyPart) (mp : messageParser) :
    findAttachments part mp = .error .bad_cast ∨
      findAttachments part mp =
        .ok (mp.pushAttachments (part.subParts.filter bodyPart.attachmentRule)) := by
  cases part with
  | mk hd c e parts =>
    rw [findAttachments, subParts_mk]
    exact findAttachmentsLoop_cases parts mp
/-- The loop of `findAttachments` over a list of siblings, likewise. -/
theorem findAttachmentsLoop_cases (parts : List bodyPart) (mp : messageParser) :
    findAttachmentsLoop parts mp = .error .bad_cast ∨
      findAttachmentsLoop parts mp =
        .ok (mp.pushAttachments ((subPartsList parts).filter bodyPart.attachmentRule)) := by
  cases parts with
  | nil => simp [findAttachmentsLoop, subPartsList, messageParser.pushAttachments]
  | cons p rest =>
    rw [findAttachmentsLoop, subPartsList]
    have hzero : p.getPartCount = 0 → p.subParts = [] := by
      intro h0
      rw [subParts_eq]
      have : p.getParts = [] := List.length_eq_zero.mp h0
      rw [this, subPartsList]
    rcases findAttachmentsStep_cases p mp with hstep | hstep
    · left; rw [hstep]
    · rw [hstep]
      simp only []
      by_cases hc : p.getPartCount = 0
      · rw [if_neg (not_not.mpr hc)]
        simp only []
        rcases findAttachmentsLoop_cases rest
          (if p.attachmentRule then mp.pushAttachment p else mp) with hrest | hrest
        · left; rw [hrest]
        · right
          rw [hrest]
          by_cases hr : p.attachmentRule = true <;>
            simp [hr, hzero hc, List.filter_cons, messageParser.pushAttachments]
      · rw [if_pos hc]
        rcases findAttachments_cases p
          (if p.attachmentRule then mp.pushAttachment p else mp) with hsub | hsub
        · left; rw [hsub]
        · rw [hsub]
          simp only []
          rcases findAttachmentsLoop_cases rest
            ((if p.attachmentRule then mp.pushAttachment p else mp).pushAttachments
              (p.subParts.filter bodyPart.attachmentRule)) with hrest | hrest
          · left; rw [hrest]
          · right
            rw [hrest]
            by_cases hr : p.attachmentRule = true <;>
              simp [hr, List.filter_cons, List.filter_append, pushAttachments_append,
                messageParser.pushAttachments]
end

/-- The state a completed walk of `findAttachments` ends in. -/
theorem findAttachments_ok (part : bodyPart) (mp mp1 : messageParser)
    (h : findAttachments part mp = .ok mp1) :
    mp1 = mp.pushAttachments (part.subParts.filter bodyPart.attachmentRule) := by
  rcases findAttachments_cases part mp with hc | hc
  · rw [hc] at h; cases h
  · rw [hc] at h
    simp only [Except.ok.injEq] at h
    exact h.symm

/-! ## Attachment detection -/

theorem keysBelow_of_nil (mp : messageParser) (hinfo : mp.m_attachInfo = []) :
    mp.keysBelow := by
  intro k _
  rw [hinfo]
  rfl

theorem subPartsTyped_iff (part : bodyPart) :
    part.subPartsTyped = true ↔ ∀ q ∈ part.subParts, q.getHeader.castsOk = true := by
  simp [bodyPart.subPartsTyped, List.all_eq_true]

theorem attachmentRule_of_disposition (p : bodyPart) (cdf : genericField disposition)
    (hcd : p.getHeader.findContentDisposition = .ok cdf)
    (hname : cdf.getValue.getName ≠ dispositionTypes.INLINE) :
    p.attachmentRule = true ∧ p.provenanceOf = some cdf.clone := by
  simp [bodyPart.attachmentRule, bodyPart.provenanceOf, hcd, hname]

theorem findContentDisposition_absent (hdr : header)
    (h : hdr.findField fields.CONTENT_DISPOSITION = .error .no_such_field) :
    hdr.findContentDisposition = .error .no_such_field := by
  simp [header.findContentDisposition, h]

theorem findContentType_absent (hdr : header)
    (h : hdr.findField fields.CONTENT_TYPE = .error .no_such_field) :
    hdr.findContentType = .error .no_such_field := by
  simp [header.findContentType, h]

/-- C1: for every message and every part strictly below the root whose header has a
Content-Disposition field with a disposition name other than inline, `findAttachments`
adds an attachment for that part, and `getAttachmentInfo` of that attachment returns a
copy of that field.  The walk starts from empty attachment lists, as in `parse`; it
completes on every tree whose Content-Disposition, Content-Type and Content-Description
fields have their own field classes, and whenever it completes the attachment and its
provenance are there. -/
theorem C1_disposition_attachment_has_provenance (msg p : bodyPart) (mp : messageParser)
    (cdf : genericField disposition) (hp : p ∈ msg.subParts)
    (hcd : p.getHeader.findContentDisposition = .ok cdf)
    (hname : cdf.getValue.getName ≠ dispositionTypes.INLINE)
    (hattach : mp.m_attach = []) (hinfo : mp.m_attachInfo = []) :
    (msg.subPartsTyped = true → ∃ mp1, findAttachments msg mp = .ok mp1) ∧
      ∀ mp1, findAttachments msg mp = .ok mp1 →
        ∃ i, mp1.getAttachmentAt i = some p.attachmentOf ∧
          mp1.getAttachmentInfo i = some cdf.clone := by
  refine ⟨fun htyped => ⟨_, findAttachments_eq msg mp ((subPartsTyped_iff msg).mp htyped)⟩,
    ?_⟩
  intro mp1 hok
  rw [findAttachments_ok msg mp mp1 hok]
  obtain ⟨hrule, hprov⟩ := attachmentRule_of_disposition p cdf hcd hname
  have hmem : p ∈ msg.subParts.filter bodyPart.attachmentRule :=
    List.mem_filter.mpr ⟨hp, hrule⟩
  obtain ⟨i, hi⟩ := List.getElem?_of_mem hmem
  refine ⟨i, ?_, ?_⟩
  · simp [messageParser.getAttachmentAt, pushAttachments_attach, hattach, hi]
  · have := pushAttachments_info mp _ (keysBelow_of_nil mp hinfo) i p hi
    rw [hattach] at this
    simpa [hprov] using this

/-- Witness of C1: the theorem applied to a concrete message. -/
theorem C1_disposition_attachment_has_provenance_witness :
    ∃ mp1, findAttachments mixedMessage messageParser.init = .ok mp1 ∧
      ∃ i, mp1.getAttachmentAt i = some pdfLeaf.attachmentOf ∧
        mp1.getAttachmentInfo i = some (exampleDisposition "attachment").clone :=
  have h := C1_disposition_attachment_has_provenance mixedMessage pdfLeaf messageParser.init
    (exampleDisposition "attachment") (by simp [mixedMessage, bodyPart.subParts, subPartsList])
    rfl (by decide) rfl rfl
  (h.1 (by decide)).elim fun mp1 hmp1 => ⟨mp1, hmp1, h.2 mp1 hmp1⟩

theorem isAttachment_of_absent (p : bodyPart)
    (hcd : p.getHeader.findField fields.CONTENT_DISPOSITION = .error .no_such_field)
    (hct : p.getHeader.contentTypeOk = true) :
    isAttachment p.getHeader =
      .ok (decide (p.typeOrDefault.getType ≠ mediaTypes.TEXT ∧
            p.typeOrDefault.getType ≠ mediaTypes.MULTIPART), none) := by
  unfold header.contentTypeOk at hct
  unfold isAttachment attachmentType bodyPart.typeOrDefault
  rw [findContentDisposition_absent _ hcd]
  rcases findContentType_cases p.getHeader with ⟨ctf, h⟩ | h | h <;>
    simp [h, isBadCast, catch_no_such_field] at hct ⊢ <;>
    (split_ifs with hx <;> simp <;> tauto)

theorem castsOk_contentTypeOk (hdr : header) (h : hdr.castsOk = true) :
    hdr.contentTypeOk = true := by
  unfold header.castsOk at h
  unfold header.contentTypeOk
  simp only [Bool.and_eq_true] at h
  exact h.1.2

theorem provenanceOf_of_absent (p : bodyPart)
    (hcd : p.getHeader.findField fields.CONTENT_DISPOSITION = .error .no_such_field) :
    p.provenanceOf = none := by
  simp [bodyPart.provenanceOf, findContentDisposition_absent _ hcd]

/-- C2: for every part strictly below the root that has no Content-Disposition field
(and whose Content-Type field, if any, is a content-type field), the flag `isAttachment`
computed for the part is true exactly when the top-level type of its Content-Type
(application/octet-stream when the field is absent) is neither text nor multipart, which
is when the part satisfies the attachment rule; a part that satisfies it stands in the
sequence of classified parts, and wherever it stands there, the attachment at that
position is the one built from the part and `getAttachmentInfo` returns NULL for it.  The walk starts from empty attachment
lists, as in `parse`; it completes on every tree whose Content-Disposition, Content-Type
and Content-Description fields have their own field classes. -/
theorem C2_no_disposition_type_rule (msg p : bodyPart) (mp : messageParser)
    (hp : p ∈ msg.subParts)
    (hcd : p.getHeader.findField fields.CONTENT_DISPOSITION = .error .no_such_field)
    (hct : p.getHeader.contentTypeOk = true)
    (hattach : mp.m_attach = []) (hinfo : mp.m_attachInfo = []) :
    isAttachment p.getHeader =
        .ok (decide (p.typeOrDefault.getType ≠ mediaTypes.TEXT ∧
              p.typeOrDefault.getType ≠ mediaTypes.MULTIPART), none) ∧
      (p.attachmentRule = true ↔
        (p.typeOrDefault.getType ≠ mediaTypes.TEXT ∧
          p.typeOrDefault.getType ≠ mediaTypes.MULTIPART)) ∧
      (msg.subPartsTyped = true → ∃ mp1, findAttachments msg mp = .ok mp1) ∧
      ∀ mp1, findAttachments msg mp = .ok mp1 →
        (p.attachmentRule = true →
          ∃ i : Nat, (msg.subParts.filter bodyPart.attachmentRule)[i]? = some p) ∧
        ∀ i, (msg.subParts.filter bodyPart.attachmentRule)[i]? = some p →
          mp1.getAttachmentAt i = some p.attachmentOf ∧ mp1.getAttachmentInfo i = none := by
  refine ⟨isAttachment_of_absent p hcd hct,
    by simp [bodyPart.attachmentRule, findContentDisposition_absent _ hcd],
    fun htyped => ⟨_, findAttachments_eq msg mp ((subPartsTyped_iff msg).mp htyped)⟩, ?_⟩
  intro mp1 hok
  rw [findAttachments_ok msg mp mp1 hok]
  refine ⟨fun hrule => List.getElem?_of_mem (List.mem_filter.mpr ⟨hp, hrule⟩), ?_⟩
  intro i hi
  constructor
  · simp [messageParser.getAttachmentAt, pushAttachments_attach, hattach, hi]
  · have := pushAttachments_info mp _ (keysBelow_of_nil mp hinfo) i p hi
    rw [hattach] at this
    simpa [provenanceOf_of_absent p hcd] using this

/-- Witness of C2: the theorem applied to a concrete message. -/
theorem C2_no_disposition_type_rule_witness :
    jpegLeaf.attachmentRule = true ∧
      ∃ mp1, findAttachments mixedMessage messageParser.init = .ok mp1 ∧
        ∀ i, (mixedMessage.subParts.filter bodyPart.attachmentRule)[i]? = some jpegLeaf →
          mp1.getAttachmentAt i = some jpegLeaf.attachmentOf ∧
            mp1.getAttachmentInfo i = none :=
  have h := C2_no_disposition_type_rule mixedMessage jpegLeaf messageParser.init
    (by simp [mixedMessage, bodyPart.subParts, subPartsList]) rfl rfl rfl rfl
  ⟨h.2.1.mpr (by decide), (h.2.2.1 (by decide)).elim fun mp1 hmp1 =>
    ⟨mp1, hmp1, (h.2.2.2 mp1 hmp1).2⟩⟩

mutual
theorem subParts_trans (a b c : bodyPart) (hab : a ∈ b.subParts) (hbc : b ∈ c.subParts) :
    a ∈ c.subParts := by
  cases c with
  | mk hd ct e parts =>
    rw [subParts_mk] at hbc ⊢
    exact subPartsList_trans a b parts hab hbc
theorem subPartsList_trans (a b : bodyPart) (parts : List bodyPart) (hab : a ∈ b.subParts)
    (hbc : b ∈ subPartsList parts) : a ∈ subPartsList parts := by
  cases parts with
  | nil => simp [subPartsList] at hbc
  | cons p rest =>
    rw [subPartsList] at hbc ⊢
    rcases List.mem_cons.mp hbc with rfl | hbc
    · simp [hab]
    · rcases List.mem_append.mp hbc with h | h
      · have := subParts_trans a b p hab h
        simp [this]
      · have := subPartsList_trans a b rest hab h
        simp [this]
end

theorem mem_subParts_of_child (parent q : bodyPart) (h : q ∈ parent.getParts) :
    q ∈ parent.subParts := by
  rw [subParts_eq]
  exact mem_subPartsList_of_mem _ _ h

/-- C3: for every finite part tree, the attachment list built by `findAttachments` is
exactly the sequence of the parts strictly below the root that satisfy the attachment
rule, in depth-first pre-order; and a part that satisfies the rule is found below any
part of the tree, whether or not that parent was classified itself.  The walk completes
on every tree whose Content-Disposition, Content-Type and Content-Description fields
have their own field classes. -/
theorem C3_attachments_in_preorder (msg : bodyPart) (mp : messageParser) :
    (msg.subPartsTyped = true → ∃ mp1, findAttachments msg mp = .ok mp1) ∧
      ∀ mp1, findAttachments msg mp = .ok mp1 →
        mp1.m_attach =
          mp.m_attach ++
            (msg.subParts.filter bodyPart.attachmentRule).map bodyPart.attachmentOf ∧
        ∀ parent q, parent ∈ msg.subParts → q ∈ parent.getParts →
          q.attachmentRule = true → q.attachmentOf ∈ mp1.m_attach := by
  refine ⟨fun htyped => ⟨_, findAttachments_eq msg mp ((subPartsTyped_iff msg).mp htyped)⟩,
    ?_⟩
  intro mp1 hok
  rw [findAttachments_ok msg mp mp1 hok]
  refine ⟨pushAttachments_attach _ _, ?_⟩
  intro parent q hparent hq hrule
  rw [pushAttachments_attach]
  apply List.mem_append_right
  apply List.mem_map_of_mem
  exact List.mem_filter.mpr
    ⟨subParts_trans q parent msg (mem_subParts_of_child parent q hq) hparent, hrule⟩

/-- Witness of C3: the theorem applied to a concrete message. -/
theorem C3_attachments_in_preorder_witness :
    ∃ mp1, findAttachments mixedMessage messageParser.init = .ok mp1 ∧
      mp1.m_attach = [jpegLeaf.attachmentOf, pdfLeaf.attachmentOf] :=
  have h := C3_attachments_in_preorder mixedMessage messageParser.init
  (h.1 (by decide)).elim fun mp1 hmp1 => ⟨mp1, hmp1, (h.2 mp1 hmp1).1⟩

theorem resolveEnvelope_lists (mp mp0 : messageParser) (hdr : header) (now : datetime)
    (h : resolveEnvelope mp hdr now = .ok mp0) :
    mp0.m_attach = mp.m_attach ∧ mp0.m_attachInfo = mp.m_attachInfo ∧
      mp0.m_textParts = mp.m_textParts := by
  unfold resolveEnvelope at h
  repeat (split at h <;> try contradiction)
  simp only [Except.ok.injEq] at h
  subst h
  exact ⟨rfl, rfl, rfl⟩

theorem findAttachments_leaf (p : bodyPart) (mp : messageParser) (h : p.getPartCount = 0) :
    findAttachments p mp = .ok mp := by
  cases p with
  | mk hd c e parts =>
    have : parts = [] := List.length_eq_zero.mp h
    subst this
    simp [findAttachments, findAttachmentsLoop]

theorem new_eq (msg : bodyPart) (now : datetime) (mp0 : messageParser)
    (henv : resolveEnvelope messageParser.init msg.getHeader now = .ok mp0) :
    messageParser.new msg now =
      match findAttachments msg mp0 with
      | .error e => .error e
      | .ok mp1 => findTextParts msg msg mp1 := by
  simp [messageParser.new, messageParser.parse, henv]

theorem init_lists_of_envelope (msg : bodyPart) (now : datetime) (mp0 : messageParser)
    (henv : resolveEnvelope messageParser.init msg.getHeader now = .ok mp0) :
    mp0.m_attach = [] ∧ mp0.m_attachInfo = [] ∧ mp0.m_textParts = [] :=
  resolveEnvelope_lists _ _ _ _ henv

/-! ## The analysis of whole messages and text-part discovery -/

/-- C4 (as stated, refuted): the single-part image/jpeg message without disposition is
analysed to 0 attachments and 0 text parts, not to 1 attachment. -/
theorem C4_counterexample :
    jpegMessage.getPartCount = 0 ∧
      jpegMessage.typeOrDefault =
        { m_type := mediaTypes.IMAGE, m_subType := mediaTypes.IMAGE_JPEG } ∧
      jpegMessage.getHeader.findField fields.CONTENT_DISPOSITION = .error .no_such_field ∧
      (∃ mp, messageParser.new jpegMessage datetime.zero = .ok mp ∧
        mp.getAttachmentCount = 0 ∧ mp.getTextPartCount = 0) ∧
      ¬ ∃ mp, messageParser.new jpegMessage datetime.zero = .ok mp ∧
        mp.getAttachmentCount = 1 ∧ mp.getTextPartCount = 0 := by
  have h : messageParser.new jpegMessage datetime.zero = .ok messageParser.init := rfl
  refine ⟨rfl, rfl, rfl, ⟨_, h, rfl, rfl⟩, ?_⟩
  rintro ⟨mp, hmp, hcount, _⟩
  rw [h] at hmp
  simp only [Except.ok.injEq] at hmp
  subst hmp
  simp [messageParser.getAttachmentCount, messageParser.init] at hcount

/-- C4 (amended): for a single-part message whose Content-Type is image/jpeg and which
has no Content-Disposition field, the analyzer produces 0 attachments and 0 text parts:
`findAttachments` classifies only parts strictly below the root (so the outcome does
not depend on the Content-Disposition field, which is not a hypothesis).  The envelope
stage of `parse` is taken to complete. -/
theorem C4_single_part_jpeg_yields_nothing (msg : bodyPart) (now : datetime)
    (mp0 : messageParser) (ctf : genericField mediaType)
    (hsingle : msg.getPartCount = 0)
    (hct : msg.getHeader.findContentType = .ok ctf)
    (hval : ctf.getValue = { m_type := mediaTypes.IMAGE, m_subType := mediaTypes.IMAGE_JPEG })
    (henv : resolveEnvelope messageParser.init msg.getHeader now = .ok mp0) :
    ∃ mp, messageParser.new msg now = .ok mp ∧
      mp.getAttachmentCount = 0 ∧ mp.getTextPartCount = 0 := by
  obtain ⟨ha, _, ht⟩ := init_lists_of_envelope msg now mp0 henv
  refine ⟨mp0, ?_, by simp [messageParser.getAttachmentCount, ha],
    by simp [messageParser.getTextPartCount, ht]⟩
  rw [new_eq msg now mp0 henv, findAttachments_leaf msg mp0 hsingle]
  simp only [findTextParts, hsingle, if_true, singlePartType, hct, hval]
  simp [catch_no_such_field, mediaType.getType, mediaTypes.IMAGE, mediaTypes.TEXT]

/-- Witness of C4: the theorem applied to a concrete message. -/
theorem C4_single_part_jpeg_yields_nothing_witness :
    ∃ mp, messageParser.new jpegMessage datetime.zero = .ok mp ∧
      mp.getAttachmentCount = 0 ∧ mp.getTextPartCount = 0 :=
  C4_single_part_jpeg_yields_nothing jpegMessage datetime.zero messageParser.init
    { m_name := fields.CONTENT_TYPE,
      m_value := { m_type := mediaTypes.IMAGE, m_subType := mediaTypes.IMAGE_JPEG } }
    rfl rfl rfl rfl

theorem subPartsContentTyped_iff (part : bodyPart) :
    part.subPartsContentTyped = true ↔
      ∀ q ∈ part.subParts, q.getHeader.contentTypeOk = true := by
  simp [bodyPart.subPartsContentTyped, List.all_eq_true]

theorem allTextParts_eq (msg p : bodyPart) :
    allTextParts msg p = levelTextParts msg p ++ allTextPartsList msg p.getParts := by
  cases p
  simp [allTextParts, bodyPart.getParts]

theorem allTextParts_leaf (msg p : bodyPart) (h : p.getParts = []) :
    allTextParts msg p = [] := by
  rw [allTextParts_eq, h]
  simp [levelTextParts, h, allTextPartsList]

/-- C5 (code evaluated at the failing input): the level of `nestedTextMessage` has the
immediate text child `plainLeaf` and one text part is built at that level.  The call
nevertheless reports `false` and the descent runs: the text-part list receives a second
entry built from `htmlLeaf`, a part nested one level deeper inside the child
`htmlContainer`, both in `findSubTextParts` and in the analysis of the whole message. -/
theorem C5_nested_text_part_still_added :
    nestedTextMessage.getParts = [plainLeaf, htmlContainer] ∧
      plainLeaf.isTextChild = true ∧ htmlContainer.getParts = [htmlLeaf] ∧
      (levelTextParts nestedTextMessage nestedTextMessage).length = 1 ∧
      findSubTextParts nestedTextMessage nestedTextMessage messageParser.init =
        .ok (false, messageParser.init.addTextParts
          [{ kind := .plainTextPart, message := nestedTextMessage,
             parent := nestedTextMessage, part := plainLeaf },
           { kind := .htmlTextPart, message := nestedTextMessage,
             parent := htmlContainer, part := htmlLeaf }]) ∧
      ∃ mp, messageParser.new nestedTextMessage datetime.zero = .ok mp ∧
        mp.getTextPartCount = 2 ∧
        mp.m_textParts =
          [{ kind := .plainTextPart, message := nestedTextMessage,
             parent := nestedTextMessage, part := plainLeaf },
           { kind := .htmlTextPart, message := nestedTextMessage,
             parent := htmlContainer, part := htmlLeaf }] :=
  ⟨rfl, rfl, rfl, rfl, rfl, _, rfl, rfl, rfl⟩

/-- The code as it stands, at a level with at least one immediate child whose
Content-Type top-level type is text: `findSubTextParts` builds the text parts of those
children, and since the early return of line 306 is commented out the descent loop runs
afterwards with `found = false`, so the text parts found deeper below follow those of
the level.  The Content-Type fields below the level are taken to have their own field
class. -/
theorem findSubTextParts_level_then_descend (msg part : bodyPart) (mp : messageParser)
    (hlevel : part.getParts.any bodyPart.isTextChild = true)
    (htyped : part.subPartsContentTyped = true) :
    ∃ textParts, collectTextParts part.getParts = .ok textParts ∧ textParts.length ≠ 0 ∧
      findSubTextParts msg part mp =
        .ok (false, mp.addTextParts
          (levelTextParts msg part ++ allTextPartsList msg part.getParts)) := by
  have hall := (subPartsContentTyped_iff part).mp htyped
  refine ⟨_, collectTextParts_eq part.getParts
    (fun p hp => hall p (mem_subParts_of_child part p hp)), ?_, ?_⟩
  · obtain ⟨x, hx, hxt⟩ := List.any_eq_true.mp hlevel
    have hmem : x ∈ part.getParts.filter bodyPart.isTextChild :=
      List.mem_filter.mpr ⟨hx, hxt⟩
    intro hzero
    rw [List.length_eq_zero.mp hzero] at hmem
    simp at hmem
  · rw [findSubTextParts_eq msg part mp hall, allTextParts_eq]

/-- An instance of `findSubTextParts_level_then_descend` at a concrete message. -/
theorem findSubTextParts_level_then_descend_example :
    ∃ textParts, collectTextParts nestedTextMessage.getParts = .ok textParts ∧
      textParts.length ≠ 0 ∧
      findSubTextParts nestedTextMessage nestedTextMessage messageParser.init =
        .ok (false, messageParser.init.addTextParts
          (levelTextParts nestedTextMessage nestedTextMessage ++
            allTextPartsList nestedTextMessage nestedTextMessage.getParts)) :=
  findSubTextParts_level_then_descend nestedTextMessage nestedTextMessage messageParser.init
    (by decide) (by decide)

/-- C6 (code evaluated at the failing input): `twoContainersMessage` has no immediate
text child, its first child holds text/plain and text/html and its second child holds a
further text part.  The search of the first child yields two text parts and still
reports `false`, so the guard `!found` of line 313 lets the loop go on to the second
child: the text-part list has three entries, the third from the second child. -/
theorem C6_second_sibling_still_searched :
    twoContainersMessage.getParts = [alternativeContainer, htmlContainer] ∧
      twoContainersMessage.getParts.filter bodyPart.isTextChild = [] ∧
      findSubTextParts twoContainersMessage alternativeContainer messageParser.init =
        .ok (false, messageParser.init.addTextParts
          [{ kind := .plainTextPart, message := twoContainersMessage,
             parent := alternativeContainer, part := plainLeaf },
           { kind := .htmlTextPart, message := twoContainersMessage,
             parent := alternativeContainer, part := htmlLeaf }]) ∧
      ∃ mp, messageParser.new twoContainersMessage datetime.zero = .ok mp ∧
        mp.getTextPartCount = 3 ∧
        mp.m_textParts =
          [{ kind := .plainTextPart, message := twoContainersMessage,
             parent := alternativeContainer, part := plainLeaf },
           { kind := .htmlTextPart, message := twoContainersMessage,
             parent := alternativeContainer, part := htmlLeaf },
           { kind := .htmlTextPart, message := twoContainersMessage,
             parent := htmlContainer, part := htmlLeaf }] :=
  ⟨rfl, rfl, rfl, _, rfl, rfl, rfl⟩

theorem create_text_plain :
    textPartFactory.getInstance.create
        { m_type := mediaTypes.TEXT, m_subType := mediaTypes.TEXT_PLAIN } =
      .ok .plainTextPart := rfl

theorem create_text_html :
    textPartFactory.getInstance.create
        { m_type := mediaTypes.TEXT, m_subType := mediaTypes.TEXT_HTML } =
      .ok .htmlTextPart := rfl

theorem contentTypeOk_of_ok (hdr : header) (ctf : genericField mediaType)
    (h : hdr.findContentType = .ok ctf) : hdr.contentTypeOk = true := by
  simp [header.contentTypeOk, h, isBadCast]

theorem subParts_leaf (p : bodyPart) (h : p.getParts = []) : p.subParts = [] := by
  rw [subParts_eq, h, subPartsList]

/-- The code as it stands, at a level without an immediate text child whose first child
is a multipart/alternative holding text/plain and text/html and whose second child is
another container: no call returns `true`, so the guard `!found` of line 313 never ends
the loop and the text-part list receives the two parts of the first child followed by
every text part found in the second.  The Content-Type fields of the second child and
below are taken to have their own field class. -/
theorem findSubTextParts_two_containers (msg root c1 c2 a b : bodyPart) (mp : messageParser)
    (ctf1 ctfa ctfb : genericField mediaType)
    (hroot : root.getParts = [c1, c2]) (hc1 : c1.getParts = [a, b])
    (ha : a.getParts = []) (hb : b.getParts = [])
    (hct1 : c1.getHeader.findContentType = .ok ctf1)
    (hv1 : ctf1.getValue =
      { m_type := mediaTypes.MULTIPART, m_subType := mediaTypes.MULTIPART_ALTERNATIVE })
    (hcta : a.getHeader.findContentType = .ok ctfa)
    (hva : ctfa.getValue = { m_type := mediaTypes.TEXT, m_subType := mediaTypes.TEXT_PLAIN })
    (hctb : b.getHeader.findContentType = .ok ctfb)
    (hvb : ctfb.getValue = { m_type := mediaTypes.TEXT, m_subType := mediaTypes.TEXT_HTML })
    (hc2 : c2.isTextChild = false) (hok2 : c2.getHeader.contentTypeOk = true)
    (htyped2 : c2.subPartsContentTyped = true) :
    findSubTextParts msg root mp =
      .ok (false, mp.addTextParts
        ([{ kind := .plainTextPart, message := msg, parent := c1, part := a },
          { kind := .htmlTextPart, message := msg, parent := c1, part := b }] ++
          allTextParts msg c2)) := by
  have hall2 := (subPartsContentTyped_iff c2).mp htyped2
  have hsub1 : c1.subParts = [a, b] := by
    rw [subParts_eq, hc1]
    simp [subPartsList, subParts_leaf a ha, subParts_leaf b hb]
  have htyped : ∀ q ∈ root.subParts, q.getHeader.contentTypeOk = true := by
    intro q hq
    rw [subParts_eq, hroot] at hq
    simp only [subPartsList, hsub1, List.append_nil, List.mem_cons, List.mem_append,
      List.not_mem_nil, or_false] at hq
    rcases hq with rfl | (rfl | rfl) | rfl | hq
    · exact contentTypeOk_of_ok _ _ hct1
    · exact contentTypeOk_of_ok _ _ hcta
    · exact contentTypeOk_of_ok _ _ hctb
    · exact hok2
    · exact hall2 q hq
  have hn1 : c1.isTextChild = false := by
    simp [bodyPart.isTextChild, hct1, hv1, mediaType.getType, mediaTypes.MULTIPART,
      mediaTypes.TEXT]
  have hta : a.isTextChild = true := by
    simp [bodyPart.isTextChild, hcta, hva, mediaType.getType]
  have htb : b.isTextChild = true := by
    simp [bodyPart.isTextChild, hctb, hvb, mediaType.getType]
  have hka : textPartOf msg c1 a =
      some { kind := .plainTextPart, message := msg, parent := c1, part := a } := by
    simp [textPartOf, bodyPart.registeredKind, hcta, hva, create_text_plain]
  have hkb : textPartOf msg c1 b =
      some { kind := .htmlTextPart, message := msg, parent := c1, part := b } := by
    simp [textPartOf, bodyPart.registeredKind, hctb, hvb, create_text_html]
  rw [findSubTextParts_eq msg root mp htyped, allTextParts_eq, hroot]
  simp [levelTextParts, hroot, hn1, hc2, allTextPartsList, allTextParts_eq msg c1, hc1,
    hta, htb, hka, hkb, allTextParts_leaf msg a ha, allTextParts_leaf msg b hb]

/-- An instance of `findSubTextParts_two_containers` at a concrete message. -/
theorem findSubTextParts_two_containers_example :
    findSubTextParts twoContainersMessage twoContainersMessage messageParser.init =
      .ok (false, messageParser.init.addTextParts
        ([{ kind := .plainTextPart, message := twoContainersMessage,
            parent := alternativeContainer, part := plainLeaf },
          { kind := .htmlTextPart, message := twoContainersMessage,
            parent := alternativeContainer, part := htmlLeaf }] ++
          allTextParts twoContainersMessage htmlContainer)) :=
  findSubTextParts_two_containers twoContainersMessage twoContainersMessage
    alternativeContainer
    htmlContainer plainLeaf htmlLeaf messageParser.init
    { m_name := fields.CONTENT_TYPE,
      m_value := { m_type := mediaTypes.MULTIPART,
                   m_subType := mediaTypes.MULTIPART_ALTERNATIVE } }
    { m_name := fields.CONTENT_TYPE,
      m_value := { m_type := mediaTypes.TEXT, m_subType := mediaTypes.TEXT_PLAIN } }
    { m_name := fields.CONTENT_TYPE,
      m_value := { m_type := mediaTypes.TEXT, m_subType := mediaTypes.TEXT_HTML } }
    rfl rfl rfl rfl rfl rfl rfl rfl rfl rfl rfl rfl (by decide)

/-- C7 (code evaluated at the failing input): the single-part text/richtext message
makes the analysis fail with `no_factory_available`, while the same media type on a
child of a container is skipped. -/
theorem C7_single_part_richtext_fails :
    richtextMessage.getPartCount = 0 ∧
      richtextMessage.typeOrDefault =
        { m_type := mediaTypes.TEXT, m_subType := mediaTypes.TEXT_RICHTEXT } ∧
      messageParser.new richtextMessage datetime.zero = .error .no_factory_available ∧
      ∃ mp, messageParser.new threeTextsMessage datetime.zero = .ok mp ∧
        mp.getTextPartCount = 2 :=
  ⟨rfl, rfl, rfl, _, rfl, rfl⟩

theorem isTextChild_findContentType (p : bodyPart) (h : p.isTextChild = true) :
    ∃ ctf, p.getHeader.findContentType = .ok ctf := by
  unfold bodyPart.isTextChild at h
  rcases findContentType_cases p.getHeader with ⟨ctf, hct⟩ | hct | hct
  · exact ⟨ctf, hct⟩
  · simp [hct] at h
  · simp [hct] at h

/-- C8: at every level of a container message, the candidates are the immediate
children whose Content-Type top-level type is text, and building their text parts
raises no error: a candidate whose media type has no registered constructor contributes
no text part, every candidate with a registered media type contributes exactly one, in
child order.  The Content-Type fields of the children are taken to have their own field
class. -/
theorem C8_unregistered_text_child_is_skipped (msg part : bodyPart) (mp : messageParser)
    (htyped : part.childrenContentTyped = true) :
    collectTextParts part.getParts = .ok (part.getParts.filter bodyPart.isTextChild) ∧
      buildTextParts msg part (part.getParts.filter bodyPart.isTextChild) mp =
        .ok (mp.addTextParts
          ((part.getParts.filter bodyPart.isTextChild).filterMap (textPartOf msg part))) ∧
      ∀ p ∈ part.getParts.filter bodyPart.isTextChild,
        ∃ ctf, p.getHeader.findContentType = .ok ctf ∧
          (textPartFactory.getInstance.create ctf.getValue = .error .no_factory_available →
            textPartOf msg part p = none) ∧
          ∀ kind, textPartFactory.getInstance.create ctf.getValue = .ok kind →
            textPartOf msg part p =
              some { kind := kind, message := msg, parent := part, part := p } := by
  have hall : ∀ p ∈ part.getParts, p.getHeader.contentTypeOk = true := by
    simpa [bodyPart.childrenContentTyped, List.all_eq_true] using htyped
  refine ⟨collectTextParts_eq _ hall,
    buildTextParts_eq msg part _ mp (filter_isTextChild_all _), ?_⟩
  intro p hp
  obtain ⟨ctf, hct⟩ := isTextChild_findContentType p (List.mem_filter.mp hp).2
  refine ⟨ctf, hct, ?_, ?_⟩
  · intro hcreate
    simp [textPartOf, bodyPart.registeredKind, hct, hcreate]
  · intro kind hcreate
    simp [textPartOf, bodyPart.registeredKind, hct, hcreate]

/-- Witness of C8: the theorem applied to a concrete message. -/
theorem C8_unregistered_text_child_is_skipped_witness :
    buildTextParts threeTextsMessage threeTextsMessage
        (threeTextsMessage.getParts.filter bodyPart.isTextChild) messageParser.init =
      .ok (messageParser.init.addTextParts
        [{ kind := .plainTextPart, message := threeTextsMessage,
           parent := threeTextsMessage, part := plainLeaf },
         { kind := .htmlTextPart, message := threeTextsMessage,
           parent := threeTextsMessage, part := htmlLeaf }]) :=
  (C8_unregistered_text_child_is_skipped threeTextsMessage threeTextsMessage
    messageParser.init (by decide)).2.1

theorem getPartCount_of_getParts (p : bodyPart) (ps : List bodyPart) (h : p.getParts = ps) :
    p.getPartCount = ps.length := by
  simp [bodyPart.getPartCount, h]

theorem findAttachments_getParts (p : bodyPart) (mp : messageParser) :
    findAttachments p mp = findAttachmentsLoop p.getParts mp := by
  cases p
  simp [findAttachments, bodyPart.getParts]

/-- C9: for a container message (multipart/mixed; the analyzer does not read the
Content-Type of a root that has children) with exactly two children, both without
parts of their own, the first with Content-Type text/plain and no Content-Disposition, the second
with Content-Type application/pdf and Content-Disposition attachment, the analyzer
yields exactly 1 text part and exactly 1 attachment, and `getAttachmentInfo` of that
attachment is the copy of the disposition field, not NULL.  The Content-Description
field of the second child is absent or a text field, and the envelope stage of `parse`
is taken to complete. -/
theorem C9_text_and_pdf (msg c1 c2 : bodyPart) (now : datetime) (mp0 : messageParser)
    (ctf1 ctf2 : genericField mediaType) (cdf : genericField disposition)
    (hparts : msg.getParts = [c1, c2]) (h1 : c1.getParts = []) (h2 : c2.getParts = [])
    (hct1 : c1.getHeader.findContentType = .ok ctf1)
    (hv1 : ctf1.getValue = { m_type := mediaTypes.TEXT, m_subType := mediaTypes.TEXT_PLAIN })
    (hcd1 : c1.getHeader.findField fields.CONTENT_DISPOSITION = .error .no_such_field)
    (hct2 : c2.getHeader.findContentType = .ok ctf2)
    (hv2 : ctf2.getValue = { m_type := mediaTypes.APPLICATION, m_subType := "pdf" })
    (hcd2 : c2.getHeader.findContentDisposition = .ok cdf)
    (hname : cdf.getValue.getName = dispositionTypes.ATTACHMENT)
    (hdesc : isBadCast c2.getHeader.findContentDescription = false)
    (henv : resolveEnvelope messageParser.init msg.getHeader now = .ok mp0) :
    ∃ mp, messageParser.new msg now = .ok mp ∧
      mp.getTextPartCount = 1 ∧
      mp.m_textParts =
        [{ kind := .plainTextPart, message := msg, parent := msg, part := c1 }] ∧
      mp.getAttachmentCount = 1 ∧ mp.getAttachmentAt 0 = some c2.attachmentOf ∧
      mp.getAttachmentInfo 0 = some cdf.clone ∧ mp.getAttachmentInfo 0 ≠ none := by
  obtain ⟨ha, hi, ht⟩ := init_lists_of_envelope msg now mp0 henv
  have hne : cdf.getValue.getName ≠ dispositionTypes.INLINE := by
    rw [hname]; decide
  obtain ⟨hrule2, hprov2⟩ := attachmentRule_of_disposition c2 cdf hcd2 hne
  have hok1 : c1.getHeader.contentTypeOk = true := contentTypeOk_of_ok _ _ hct1
  have hok2 : c2.getHeader.contentTypeOk = true := contentTypeOk_of_ok _ _ hct2
  have hcasts2 : c2.getHeader.castsOk = true := by
    unfold header.castsOk
    rw [hdesc, hcd2, hct2]
    rfl
  have hstep1 : findAttachmentsStep c1 mp0 = .ok mp0 := by
    unfold findAttachmentsStep
    rw [isAttachment_of_absent c1 hcd1 hok1]
    simp [bodyPart.typeOrDefault, hct1, hv1, mediaType.getType]
  have hstep2 : findAttachmentsStep c2 mp0 = .ok (mp0.pushAttachment c2) := by
    rw [findAttachmentsStep_eq c2 mp0 hcasts2, hrule2]
    simp
  have hattach : findAttachments msg mp0 = .ok (mp0.pushAttachment c2) := by
    rw [findAttachments_getParts, hparts]
    simp [findAttachmentsLoop, hstep1, hstep2, getPartCount_of_getParts c1 [] h1,
      getPartCount_of_getParts c2 [] h2]
  have htyped : ∀ q ∈ msg.subParts, q.getHeader.contentTypeOk = true := by
    intro q hq
    rw [subParts_eq, hparts] at hq
    simp only [subPartsList, subParts_leaf c1 h1, subParts_leaf c2 h2, List.append_nil,
      List.nil_append, List.mem_cons, List.not_mem_nil, or_false] at hq
    rcases hq with rfl | rfl
    · exact hok1
    · exact hok2
  have hall : allTextParts msg msg =
      [{ kind := .plainTextPart, message := msg, parent := msg, part := c1 }] := by
    have ht1 : c1.isTextChild = true := by
      simp [bodyPart.isTextChild, hct1, hv1, mediaType.getType]
    have ht2 : c2.isTextChild = false := by
      simp [bodyPart.isTextChild, hct2, hv2, mediaType.getType, mediaTypes.APPLICATION,
        mediaTypes.TEXT]
    have hk1 : textPartOf msg msg c1 =
        some { kind := .plainTextPart, message := msg, parent := msg, part := c1 } := by
      simp [textPartOf, bodyPart.registeredKind, hct1, hv1, create_text_plain]
    rw [allTextParts_eq, hparts]
    simp [levelTextParts, hparts, ht1, ht2, hk1, allTextPartsList,
      allTextParts_leaf msg c1 h1, allTextParts_leaf msg c2 h2]
  have hnew : messageParser.new msg now =
      .ok ((mp0.pushAttachment c2).addTextParts
        [{ kind := .plainTextPart, message := msg, parent := msg, part := c1 }]) := by
    rw [new_eq msg now mp0 henv, hattach]
    simp only [findTextParts, getPartCount_of_getParts msg _ hparts]
    simp [findSubTextParts_eq msg msg _ htyped, hall]
  refine ⟨_, hnew, ?_, ?_, ?_, ?_, ?_, ?_⟩
  · simp [messageParser.getTextPartCount, messageParser.addTextParts,
      messageParser.pushAttachment, ht]
  · simp [messageParser.addTextParts, messageParser.pushAttachment, ht]
  · simp [messageParser.getAttachmentCount, messageParser.addTextParts,
      messageParser.pushAttachment, ha]
  · simp [messageParser.getAttachmentAt, messageParser.addTextParts,
      messageParser.pushAttachment, ha]
  · simp [messageParser.getAttachmentInfo, messageParser.addTextParts,
      messageParser.pushAttachment, ha, hi, hprov2, mapInsert]
  · simp [messageParser.getAttachmentInfo, messageParser.addTextParts,
      messageParser.pushAttachment, ha, hi, hprov2, mapInsert]

/-- Witness of C9: the theorem applied to a concrete message. -/
theorem C9_text_and_pdf_witness :
    ∃ mp, messageParser.new textAndPdfMessage datetime.zero = .ok mp ∧
      mp.getTextPartCount = 1 ∧
      mp.m_textParts =
        [{ kind := .plainTextPart, message := textAndPdfMessage,
           parent := textAndPdfMessage, part := plainLeaf }] ∧
      mp.getAttachmentCount = 1 ∧ mp.getAttachmentAt 0 = some pdfLeaf.attachmentOf ∧
      mp.getAttachmentInfo 0 = some (exampleDisposition "attachment").clone ∧
      mp.getAttachmentInfo 0 ≠ none :=
  C9_text_and_pdf textAndPdfMessage plainLeaf pdfLeaf datetime.zero messageParser.init
    { m_name := fields.CONTENT_TYPE,
      m_value := { m_type := mediaTypes.TEXT, m_subType := mediaTypes.TEXT_PLAIN } }
    { m_name := fields.CONTENT_TYPE,
      m_value := { m_type := mediaTypes.APPLICATION, m_subType := "pdf" } }
    (exampleDisposition "attachment")
    rfl rfl rfl rfl rfl rfl rfl rfl rfl rfl rfl rfl

/-- C10: for every single-part message whose header has no Content-Type field, the
analyzer yields exactly 1 text part, built by the constructor registered for text/plain,
and 0 attachments.  The envelope stage of `parse` is taken to complete. -/
theorem C10_no_content_type_is_text_plain (msg : bodyPart) (now : datetime)
    (mp0 : messageParser) (hsingle : msg.getPartCount = 0)
    (hct : msg.getHeader.findField fields.CONTENT_TYPE = .error .no_such_field)
    (henv : resolveEnvelope messageParser.init msg.getHeader now = .ok mp0) :
    textPartFactory.getInstance.create
        { m_type := mediaTypes.TEXT, m_subType := mediaTypes.TEXT_PLAIN } =
        .ok .plainTextPart ∧
      ∃ mp, messageParser.new msg now = .ok mp ∧
        mp.getTextPartCount = 1 ∧
        mp.m_textParts =
          [{ kind := .plainTextPart, message := msg, parent := msg, part := msg }] ∧
        mp.getAttachmentCount = 0 := by
  obtain ⟨ha, _, ht⟩ := init_lists_of_envelope msg now mp0 henv
  refine ⟨create_text_plain,
    mp0.addTextParts [{ kind := .plainTextPart, message := msg, parent := msg, part := msg }],
    ?_, ?_, ?_, ?_⟩
  · rw [new_eq msg now mp0 henv, findAttachments_leaf msg mp0 hsingle]
    simp only [findTextParts, hsingle, if_true, singlePartType,
      findContentType_absent _ hct]
    simp [catch_no_such_field, create_text_plain, messageParser.addTextParts]
  · simp [messageParser.getTextPartCount, messageParser.addTextParts, ht]
  · simp [messageParser.addTextParts, ht]
  · simp [messageParser.getAttachmentCount, messageParser.addTextParts, ha]

/-- Witness of C10: the theorem applied to a concrete message. -/
theorem C10_no_content_type_is_text_plain_witness :
    textPartFactory.getInstance.create
        { m_type := mediaTypes.TEXT, m_subType := mediaTypes.TEXT_PLAIN } =
        .ok .plainTextPart ∧
      ∃ mp, messageParser.new bareMessage datetime.zero = .ok mp ∧
        mp.getTextPartCount = 1 ∧
        mp.m_textParts =
          [{ kind := .plainTextPart, message := bareMessage, parent := bareMessage,
             part := bareMessage }] ∧
        mp.getAttachmentCount = 0 :=
  C10_no_content_type_is_text_plain bareMessage datetime.zero messageParser.init rfl rfl rfl

/-! ## The envelope and the date -/

/-- The first loop of `findSubTextParts` on any list of children: it aborts with
`std::bad_cast`, or it collects the text-labelled children in order. -/
theorem collectTextParts_cases (ps : List bodyPart) :
    collectTextParts ps = .error .bad_cast ∨
      collectTextParts ps = .ok (ps.filter bodyPart.isTextChild) := by
  induction ps with
  | nil => simp [collectTextParts]
  | cons p rest ih =>
    rw [collectTextParts]
    rcases findContentType_cases p.getHeader with ⟨ctf, hct⟩ | hct | hct
    · rcases ih with h | h <;>
        simp [hct, h, catch_no_such_field, bodyPart.isTextChild, List.filter_cons]
    · rcases ih with h | h <;>
        simp [hct, h, catch_no_such_field, bodyPart.isTextChild, List.filter_cons]
    · left
      simp [hct, catch_no_such_field]

mutual
/-- The walk of `findSubTextParts` on any tree: it aborts with `std::bad_cast`, or it
returns false and appends the text parts of every level at and below `part`. -/
theorem findSubTextParts_cases (msg part : bodyPart) (mp : messageParser) :
    findSubTextParts msg part mp = .error .bad_cast ∨
      findSubTextParts msg part mp = .ok (false, mp.addTextParts (allTextParts msg part)) := by
  cases part with
  | mk hd c e parts =>
    rw [findSubTextParts, allTextParts]
    rcases collectTextParts_cases parts with hcol | hcol
    · left; rw [hcol]
    · rw [hcol]
      simp only []
      rw [buildTextParts_eq msg _ _ mp (filter_isTextChild_all parts)]
      have hlevel : levelTextParts msg (bodyPart.mk hd c e parts) =
          (parts.filter bodyPart.isTextChild).filterMap
            (textPartOf msg (bodyPart.mk hd c e parts)) := rfl
      by_cases hz : (parts.filter bodyPart.isTextChild).length ≠ 0
      · rw [if_pos hz]
        simp only []
        rcases findSubTextPartsLoop_cases msg parts
          (mp.addTextParts ((parts.filter bodyPart.isTextChild).filterMap
            (textPartOf msg (bodyPart.mk hd c e parts)))) with hloop | hloop
        · left; rw [hloop]
        · right; rw [hloop, addTextParts_add, hlevel]
      · have hnil : parts.filter bodyPart.isTextChild = [] :=
          List.length_eq_zero.mp (not_not.mp hz)
        rw [if_neg hz]
        simp only []
        rcases findSubTextPartsLoop_cases msg parts mp with hloop | hloop
        · left; rw [hloop]
        · right; rw [hloop, hlevel, hnil]; simp
/-- The descent loop of `findSubTextParts` over a list of siblings, likewise. -/
theorem findSubTextPartsLoop_cases (msg : bodyPart) (parts : List bodyPart)
    (mp : messageParser) :
    findSubTextPartsLoop msg parts false mp = .error .bad_cast ∨
      findSubTextPartsLoop msg parts false mp =
        .ok (false, mp.addTextParts (allTextPartsList msg parts)) := by
  cases parts with
  | nil => simp [findSubTextPartsLoop, allTextPartsList, addTextParts_nil]
  | cons p rest =>
    rw [findSubTextPartsLoop, allTextPartsList]
    simp only [Bool.false_eq_true, if_false]
    rcases findSubTextParts_cases msg p mp with hsub | hsub
    · left; rw [hsub]
    · rw [hsub]
      simp only []
      rcases findSubTextPartsLoop_cases msg rest
        (mp.addTextParts (allTextParts msg p)) with hrest | hrest
      · left; rw [hrest]
      · right; rw [hrest, addTextParts_add]
end

theorem sameEnvelope_refl (a : messageParser) : a.sameEnvelope a :=
  ⟨rfl, rfl, rfl, rfl, rfl, rfl⟩

theorem pushAttachments_sameEnvelope (mp : messageParser) (ps : List bodyPart) :
    (mp.pushAttachments ps).sameEnvelope mp := by
  induction ps generalizing mp with
  | nil => exact sameEnvelope_refl mp
  | cons p ps ih =>
    rw [pushAttachments_cons]
    exact ih (mp.pushAttachment p)

theorem addTextParts_sameEnvelope (mp : messageParser) (tps : List textPart) :
    (mp.addTextParts tps).sameEnvelope mp :=
  ⟨rfl, rfl, rfl, rfl, rfl, rfl⟩

theorem findTextParts_sameEnvelope (msg part : bodyPart) (mp mp1 : messageParser)
    (h : findTextParts msg part mp = .ok mp1) : mp1.sameEnvelope mp := by
  unfold findTextParts at h
  split at h
  · split at h
    · contradiction
    · split at h
      · split at h
        · contradiction
        · simp only [Except.ok.injEq] at h
          subst h
          exact ⟨rfl, rfl, rfl, rfl, rfl, rfl⟩
      · simp only [Except.ok.injEq] at h
        subst h
        exact sameEnvelope_refl mp
  · rcases findSubTextParts_cases msg part mp with hc | hc
    · rw [hc] at h
      contradiction
    · rw [hc] at h
      simp only [Except.ok.injEq] at h
      subst h
      exact addTextParts_sameEnvelope mp _

theorem new_ok_envelope (msg : bodyPart) (now : datetime) (mp : messageParser)
    (h : messageParser.new msg now = .ok mp) :
    ∃ mp0, resolveEnvelope messageParser.init msg.getHeader now = .ok mp0 ∧
      mp.sameEnvelope mp0 := by
  unfold messageParser.new messageParser.parse at h
  split at h
  · contradiction
  · rename_i mp0 henv
    refine ⟨mp0, henv, ?_⟩
    split at h
    · contradiction
    · rename_i mp1 hatt
      have h1 := findTextParts_sameEnvelope msg msg mp1 mp h
      rw [findAttachments_ok msg mp0 mp1 hatt] at h1
      have h2 := pushAttachments_sameEnvelope mp0
        (msg.subParts.filter bodyPart.attachmentRule)
      obtain ⟨a1, a2, a3, a4, a5, a6⟩ := h1
      obtain ⟨b1, b2, b3, b4, b5, b6⟩ := h2
      exact ⟨a1.trans b1, a2.trans b2, a3.trans b3, a4.trans b4, a5.trans b5, a6.trans b6⟩

theorem resolveEnvelope_ok (mp mp0 : messageParser) (hdr : header) (now : datetime)
    (h : resolveEnvelope mp hdr now = .ok mp0) :
    TRY_FIELD mp.m_from (hdr.findMailbox fields.FROM) = .ok mp0.m_from ∧
      TRY_FIELD mp.m_to (hdr.findAddressList fields.TO) = .ok mp0.m_to ∧
      TRY_FIELD mp.m_cc (hdr.findAddressList fields.CC) = .ok mp0.m_cc ∧
      TRY_FIELD mp.m_bcc (hdr.findAddressList fields.BCC) = .ok mp0.m_bcc ∧
      TRY_FIELD mp.m_subject (hdr.findText fields.SUBJECT) = .ok mp0.m_subject ∧
      resolveDate hdr now = .ok mp0.m_date := by
  unfold resolveEnvelope at h
  repeat (split at h <;> try contradiction)
  simp only [Except.ok.injEq] at h
  subst h
  simp [*]

theorem findMailbox_cases (hdr : header) (name : String) :
    (∃ f, hdr.findMailbox name = .ok f) ∨ hdr.findMailbox name = .error .no_such_field ∨
      hdr.findMailbox name = .error .bad_cast := by
  unfold header.findMailbox
  rcases findField_cases hdr name with ⟨f, hf⟩ | hf <;> rw [hf]
  · cases f <;> simp [headerField.cast_mailboxField]
  · simp

theorem findAddressList_cases (hdr : header) (name : String) :
    (∃ f, hdr.findAddressList name = .ok f) ∨
      hdr.findAddressList name = .error .no_such_field ∨
      hdr.findAddressList name = .error .bad_cast := by
  unfold header.findAddressList
  rcases findField_cases hdr name with ⟨f, hf⟩ | hf <;> rw [hf]
  · cases f <;> simp [headerField.cast_addressListField]
  · simp

theorem findText_cases (hdr : header) (name : String) :
    (∃ f, hdr.findText name = .ok f) ∨ hdr.findText name = .error .no_such_field ∨
      hdr.findText name = .error .bad_cast := by
  unfold header.findText
  rcases findField_cases hdr name with ⟨f, hf⟩ | hf <;> rw [hf]
  · cases f <;> simp [headerField.cast_textField]
  · simp

theorem findReceived_cases (hdr : header) :
    (∃ f, hdr.findReceived = .ok f) ∨ hdr.findReceived = .error .no_such_field ∨
      hdr.findReceived = .error .bad_cast := by
  unfold header.findReceived
  rcases findField_cases hdr fields.RECEIVED with ⟨f, hf⟩ | hf <;> rw [hf]
  · cases f <;> simp [headerField.cast_relayField]
  · simp

theorem findDate_cases (hdr : header) :
    (∃ f, hdr.findDate = .ok f) ∨ hdr.findDate = .error .no_such_field ∨
      hdr.findDate = .error .bad_cast := by
  unfold header.findDate
  rcases findField_cases hdr fields.DATE with ⟨f, hf⟩ | hf <;> rw [hf]
  · cases f <;> simp [headerField.cast_dateField]
  · simp

theorem TRY_FIELD_ok {α : Type} (var : α) (f : genericField α) :
    TRY_FIELD var (.ok f) = .ok f.getValue := rfl

theorem TRY_FIELD_absent {α : Type} (var : α) :
    TRY_FIELD var (.error .no_such_field : Except Exn (genericField α)) = .ok var := rfl

theorem TRY_FIELD_bad_cast {α : Type} (var : α) :
    TRY_FIELD var (.error .bad_cast : Except Exn (genericField α)) = .error .bad_cast := rfl

theorem TRY_FIELD_complete {α : Type} (var : α) (r : Except Exn (genericField α))
    (hr : (∃ f, r = .ok f) ∨ r = .error .no_such_field ∨ r = .error .bad_cast)
    (h : isBadCast r = false) : ∃ v, TRY_FIELD var r = .ok v := by
  rcases hr with ⟨f, rfl⟩ | rfl | rfl
  · exact ⟨_, rfl⟩
  · exact ⟨_, rfl⟩
  · simp [isBadCast] at h

theorem resolveDate_received (hdr : header) (now : datetime) (recv : genericField relay)
    (h : hdr.findReceived = .ok recv) :
    resolveDate hdr now = .ok recv.getValue.getDate := by
  simp [resolveDate, h, catch_no_such_field]

theorem findReceived_absent (hdr : header)
    (h : hdr.findField fields.RECEIVED = .error .no_such_field) :
    hdr.findReceived = .error .no_such_field := by
  simp [header.findReceived, h]

theorem findDate_absent (hdr : header)
    (h : hdr.findField fields.DATE = .error .no_such_field) :
    hdr.findDate = .error .no_such_field := by
  simp [header.findDate, h]

theorem resolveDate_date (hdr : header) (now : datetime) (date : genericField datetime)
    (hrecv : hdr.findField fields.RECEIVED = .error .no_such_field)
    (h : hdr.findDate = .ok date) :
    resolveDate hdr now = .ok date.getValue := by
  simp [resolveDate, findReceived_absent hdr hrecv, h, catch_no_such_field]

theorem resolveDate_now (hdr : header) (now : datetime)
    (hrecv : hdr.findField fields.RECEIVED = .error .no_such_field)
    (h : hdr.findField fields.DATE = .error .no_such_field) :
    resolveDate hdr now = .ok now := by
  simp [resolveDate, findReceived_absent hdr hrecv, findDate_absent hdr h,
    catch_no_such_field]

theorem resolveDate_cases (hdr : header) (now : datetime) :
    (∃ d, resolveDate hdr now = .ok d) ∨ resolveDate hdr now = .error .bad_cast := by
  unfold resolveDate
  rcases findReceived_cases hdr with ⟨f, hf⟩ | hf | hf <;>
  rcases findDate_cases hdr with ⟨g, hg⟩ | hg | hg <;>
  simp [hf, hg, catch_no_such_field]

theorem resolveEnvelope_complete (mp : messageParser) (hdr : header) (now : datetime)
    (h : hdr.envelopeOk now = true) : ∃ mp0, resolveEnvelope mp hdr now = .ok mp0 := by
  unfold header.envelopeOk at h
  simp only [Bool.and_eq_true, Bool.not_eq_true'] at h
  obtain ⟨⟨⟨⟨⟨h1, h2⟩, h3⟩, h4⟩, h5⟩, h6⟩ := h
  obtain ⟨v1, e1⟩ := TRY_FIELD_complete mp.m_from _ (findMailbox_cases hdr fields.FROM) h1
  obtain ⟨v2, e2⟩ := TRY_FIELD_complete mp.m_to _ (findAddressList_cases hdr fields.TO) h2
  obtain ⟨v3, e3⟩ := TRY_FIELD_complete mp.m_cc _ (findAddressList_cases hdr fields.CC) h3
  obtain ⟨v4, e4⟩ := TRY_FIELD_complete mp.m_bcc _ (findAddressList_cases hdr fields.BCC) h4
  obtain ⟨v5, e5⟩ := TRY_FIELD_complete mp.m_subject _ (findText_cases hdr fields.SUBJECT) h5
  rcases resolveDate_cases hdr now with ⟨d, e6⟩ | e6
  · simp only [resolveEnvelope, e1, e2, e3, e4, e5, e6]
    exact ⟨_, rfl⟩
  · simp [e6, isBadCast] at h6

theorem new_date (msg : bodyPart) (now : datetime) (mp : messageParser) (d : datetime)
    (hd : resolveDate msg.getHeader now = .ok d)
    (h : messageParser.new msg now = .ok mp) : mp.getDate = d := by
  obtain ⟨mp0, henv, hsame⟩ := new_ok_envelope msg now mp h
  have h6 := (resolveEnvelope_ok _ _ _ _ henv).2.2.2.2.2
  rw [hd] at h6
  simp only [Except.ok.injEq] at h6
  rw [messageParser.getDate, hsame.2.2.2.2.2, ← h6]

/-- C11: for every message whose header contains a Received field that is a relay field, the
date stage of `parse` resolves the date carried by the first Received field, whether or
not a Date field is present and whatever it holds; and that is the date of every
completed analysis. -/
theorem C11_received_date_wins (msg : bodyPart) (now : datetime) (recv : genericField relay)
    (hrecv : msg.getHeader.findReceived = .ok recv) :
    resolveDate msg.getHeader now = .ok recv.getValue.getDate ∧
      ∀ mp, messageParser.new msg now = .ok mp → mp.getDate = recv.getValue.getDate :=
  ⟨resolveDate_received _ now recv hrecv,
    fun mp h => new_date msg now mp _ (resolveDate_received _ now recv hrecv) h⟩

/-- Witness of C11: the theorem applied to a concrete message. -/
theorem C11_received_date_wins_witness :
    resolveDate receivedAndDateMessage.getHeader datetime.zero = .ok exampleDate ∧
      ∀ mp, messageParser.new receivedAndDateMessage datetime.zero = .ok mp →
        mp.getDate = exampleDate :=
  C11_received_date_wins receivedAndDateMessage datetime.zero
    { m_name := fields.RECEIVED,
      m_value := { m_from := "mx.example.org", m_by := "mail.example.org",
                   m_date := exampleDate } } rfl

/-- C12: for every message whose header has no Received field, the date stage of `parse`
resolves the value of the Date field when one is present, and the current time read by
`datetime::now ()` (the argument `now`) when there is no Date field either; and that is
the date of every completed analysis. -/
theorem C12_date_field_then_now (msg : bodyPart) (now : datetime)
    (hrecv : msg.getHeader.findField fields.RECEIVED = .error .no_such_field) :
    (∀ date, msg.getHeader.findDate = .ok date →
        resolveDate msg.getHeader now = .ok date.getValue ∧
          ∀ mp, messageParser.new msg now = .ok mp → mp.getDate = date.getValue) ∧
      (msg.getHeader.findField fields.DATE = .error .no_such_field →
        resolveDate msg.getHeader now = .ok now ∧
          ∀ mp, messageParser.new msg now = .ok mp → mp.getDate = now) :=
  ⟨fun date hdate => ⟨resolveDate_date _ now date hrecv hdate,
      fun mp h => new_date msg now mp _ (resolveDate_date _ now date hrecv hdate) h⟩,
    fun hdate => ⟨resolveDate_now _ now hrecv hdate,
      fun mp h => new_date msg now mp _ (resolveDate_now _ now hrecv hdate) h⟩⟩

/-- Witness of C12: the theorem applied to two concrete messages, one with a Date field
and one without. -/
theorem C12_date_field_then_now_witness :
    resolveDate dateOnlyMessage.getHeader exampleDate = .ok otherDate ∧
      resolveDate bareMessage.getHeader exampleDate = .ok exampleDate :=
  ⟨((C12_date_field_then_now dateOnlyMessage exampleDate rfl).1
      { m_name := fields.DATE, m_value := otherDate } rfl).1,
    ((C12_date_field_then_now bareMessage exampleDate rfl).2 rfl).1⟩

/-- C13 (as stated, refuted): the first Received field of `unparsedReceivedMessage` holds
a date that was not parsed from its text and a Date field with `otherDate` is present;
the analysis resolves the date held by the Received field, not the value of the Date
field. -/
theorem C13_counterexample :
    unparsedReceivedMessage.getHeader.findDate =
        .ok { m_name := fields.DATE, m_value := otherDate } ∧
      (∃ mp, messageParser.new unparsedReceivedMessage exampleDate = .ok mp ∧
        mp.getDate = datetime.zero) ∧
      ¬ ∃ mp, messageParser.new unparsedReceivedMessage exampleDate = .ok mp ∧
        mp.getDate = otherDate := by
  have h : messageParser.new unparsedReceivedMessage exampleDate =
      .ok (messageParser.init.addTextParts
        [{ kind := .plainTextPart, message := unparsedReceivedMessage,
           parent := unparsedReceivedMessage, part := unparsedReceivedMessage }]) := rfl
  refine ⟨rfl, ⟨_, h, rfl⟩, ?_⟩
  rintro ⟨mp, hmp, hdate⟩
  rw [h] at hmp
  simp only [Except.ok.injEq] at hmp
  subst hmp
  revert hdate
  decide

/-- C13 (amended): when the first Received field is present (a relay field) and a Date
field is present, the resolved date is the date held by the Received field, whatever
that date is and however it was obtained; it is the value of the Date field only when
the two dates coincide. -/
theorem C13_received_date_used_as_is (msg : bodyPart) (now : datetime)
    (recv : genericField relay) (date : genericField datetime)
    (hrecv : msg.getHeader.findReceived = .ok recv)
    (hdate : msg.getHeader.findDate = .ok date) :
    resolveDate msg.getHeader now = .ok recv.getValue.getDate ∧
      (resolveDate msg.getHeader now = .ok date.getValue ↔
        recv.getValue.getDate = date.getValue) ∧
      ∀ mp, messageParser.new msg now = .ok mp →
        mp.getDate = recv.getValue.getDate ∧
          (mp.getDate = date.getValue ↔ recv.getValue.getDate = date.getValue) := by
  have _ := hdate
  have h := resolveDate_received msg.getHeader now recv hrecv
  refine ⟨h, ?_, ?_⟩
  · rw [h]
    simp
  · intro mp hmp
    have hd := new_date msg now mp _ h hmp
    exact ⟨hd, by rw [hd]⟩

/-- Witness of C13: the theorem applied to a concrete message. -/
theorem C13_received_date_used_as_is_witness :
    resolveDate unparsedReceivedMessage.getHeader exampleDate = .ok datetime.zero :=
  (C13_received_date_used_as_is unparsedReceivedMessage exampleDate
    { m_name := fields.RECEIVED,
      m_value := { m_from := "mx.example.org", m_by := "mail.example.org",
                   m_date := datetime.zero } }
    { m_name := fields.DATE, m_value := otherDate } rfl rfl).1

theorem findMailbox_absent (hdr : header) (name : String)
    (h : hdr.findField name = .error .no_such_field) :
    hdr.findMailbox name = .error .no_such_field := by
  simp [header.findMailbox, h]

theorem findAddressList_absent (hdr : header) (name : String)
    (h : hdr.findField name = .error .no_such_field) :
    hdr.findAddressList name = .error .no_such_field := by
  simp [header.findAddressList, h]

theorem findText_absent (hdr : header) (name : String)
    (h : hdr.findField name = .error .no_such_field) :
    hdr.findText name = .error .no_such_field := by
  simp [header.findText, h]

/-- The envelope values of a completed analysis are those the five `TRY_FIELD` lines
compute from the default-constructed members, each from its own lookup. -/
theorem new_envelope (msg : bodyPart) (now : datetime) (mp : messageParser)
    (h : messageParser.new msg now = .ok mp) :
    TRY_FIELD messageParser.init.m_from (msg.getHeader.findMailbox fields.FROM) =
        .ok mp.getExpeditor ∧
      TRY_FIELD messageParser.init.m_to (msg.getHeader.findAddressList fields.TO) =
        .ok mp.getRecipients ∧
      TRY_FIELD messageParser.init.m_cc (msg.getHeader.findAddressList fields.CC) =
        .ok mp.getCopyRecipients ∧
      TRY_FIELD messageParser.init.m_bcc (msg.getHeader.findAddressList fields.BCC) =
        .ok mp.getBlindCopyRecipients ∧
      TRY_FIELD messageParser.init.m_subject (msg.getHeader.findText fields.SUBJECT) =
        .ok mp.getSubject := by
  obtain ⟨mp0, henv, h1, h2, h3, h4, h5, _⟩ := new_ok_envelope msg now mp h
  obtain ⟨e1, e2, e3, e4, e5, _⟩ := resolveEnvelope_ok _ _ _ _ henv
  simp only [messageParser.getExpeditor, messageParser.getRecipients,
    messageParser.getCopyRecipients, messageParser.getBlindCopyRecipients,
    messageParser.getSubject, h1, h2, h3, h4, h5]
  exact ⟨e1, e2, e3, e4, e5⟩

theorem TRY_FIELD_value {α : Type} (var v : α) (r : Except Exn (genericField α))
    (f : genericField α) (h : TRY_FIELD var r = .ok v) (hr : r = .ok f) :
    v = f.getValue := by
  subst hr
  rw [TRY_FIELD_ok] at h
  simp only [Except.ok.injEq] at h
  exact h.symm

theorem TRY_FIELD_default {α : Type} (var v : α) (r : Except Exn (genericField α))
    (h : TRY_FIELD var r = .ok v) (hr : r = .error .no_such_field) : v = var := by
  subst hr
  rw [TRY_FIELD_absent] at h
  simp only [Except.ok.injEq] at h
  exact h.symm

theorem TRY_FIELD_same {α : Type} (var v w : α) (r s : Except Exn (genericField α))
    (h : TRY_FIELD var r = .ok v) (h2 : TRY_FIELD var s = .ok w) (hrs : s = r) :
    w = v := by
  subst hrs
  rw [h] at h2
  simp only [Except.ok.injEq] at h2
  exact h2.symm

/-- C14: for every message and each of the five envelope values, in every completed
analysis the resolved value is the value of the first header field of that name when
the field is present with its own field class, and the empty default when the field is
absent; the value resolved for one name is the same in any two analyses whose headers
give the same lookup for that name, whatever the other fields are.  The envelope stage
completes whenever each field it reads is absent or of its own class. -/
theorem C14_envelope_values (msg : bodyPart) (now : datetime) :
    (msg.getHeader.envelopeOk now = true →
        ∃ mp0, resolveEnvelope messageParser.init msg.getHeader now = .ok mp0) ∧
      ∀ mp, messageParser.new msg now = .ok mp →
        ((∀ f, msg.getHeader.findMailbox fields.FROM = .ok f → mp.getExpeditor = f.getValue) ∧
          (msg.getHeader.findField fields.FROM = .error .no_such_field →
            mp.getExpeditor = { m_name := "", m_email := "" })) ∧
        ((∀ f, msg.getHeader.findAddressList fields.TO = .ok f →
            mp.getRecipients = f.getValue) ∧
          (msg.getHeader.findField fields.TO = .error .no_such_field →
            mp.getRecipients = [])) ∧
        ((∀ f, msg.getHeader.findAddressList fields.CC = .ok f →
            mp.getCopyRecipients = f.getValue) ∧
          (msg.getHeader.findField fields.CC = .error .no_such_field →
            mp.getCopyRecipients = [])) ∧
        ((∀ f, msg.getHeader.findAddressList fields.BCC = .ok f →
            mp.getBlindCopyRecipients = f.getValue) ∧
          (msg.getHeader.findField fields.BCC = .error .no_such_field →
            mp.getBlindCopyRecipients = [])) ∧
        ((∀ f, msg.getHeader.findText fields.SUBJECT = .ok f → mp.getSubject = f.getValue) ∧
          (msg.getHeader.findField fields.SUBJECT = .error .no_such_field →
            mp.getSubject = "")) ∧
        ∀ msg2 now2 mp2, messageParser.new msg2 now2 = .ok mp2 →
          (msg2.getHeader.findMailbox fields.FROM = msg.getHeader.findMailbox fields.FROM →
            mp2.getExpeditor = mp.getExpeditor) ∧
          (msg2.getHeader.findAddressList fields.TO =
              msg.getHeader.findAddressList fields.TO →
            mp2.getRecipients = mp.getRecipients) ∧
          (msg2.getHeader.findAddressList fields.CC =
              msg.getHeader.findAddressList fields.CC →
            mp2.getCopyRecipients = mp.getCopyRecipients) ∧
          (msg2.getHeader.findAddressList fields.BCC =
              msg.getHeader.findAddressList fields.BCC →
            mp2.getBlindCopyRecipients = mp.getBlindCopyRecipients) ∧
          (msg2.getHeader.findText fields.SUBJECT = msg.getHeader.findText fields.SUBJECT →
            mp2.getSubject = mp.getSubject) := by
  refine ⟨resolveEnvelope_complete _ _ now, ?_⟩
  intro mp h
  obtain ⟨e1, e2, e3, e4, e5⟩ := new_envelope msg now mp h
  refine ⟨⟨fun f hf => TRY_FIELD_value _ _ _ f e1 hf,
      fun ha => TRY_FIELD_default _ _ _ e1 (findMailbox_absent _ _ ha)⟩,
    ⟨fun f hf => TRY_FIELD_value _ _ _ f e2 hf,
      fun ha => TRY_FIELD_default _ _ _ e2 (findAddressList_absent _ _ ha)⟩,
    ⟨fun f hf => TRY_FIELD_value _ _ _ f e3 hf,
      fun ha => TRY_FIELD_default _ _ _ e3 (findAddressList_absent _ _ ha)⟩,
    ⟨fun f hf => TRY_FIELD_value _ _ _ f e4 hf,
      fun ha => TRY_FIELD_default _ _ _ e4 (findAddressList_absent _ _ ha)⟩,
    ⟨fun f hf => TRY_FIELD_value _ _ _ f e5 hf,
      fun ha => TRY_FIELD_default _ _ _ e5 (findText_absent _ _ ha)⟩, ?_⟩
  intro msg2 now2 mp2 h2
  obtain ⟨g1, g2, g3, g4, g5⟩ := new_envelope msg2 now2 mp2 h2
  exact ⟨fun hs => TRY_FIELD_same _ _ _ _ _ e1 g1 hs,
    fun hs => TRY_FIELD_same _ _ _ _ _ e2 g2 hs,
    fun hs => TRY_FIELD_same _ _ _ _ _ e3 g3 hs,
    fun hs => TRY_FIELD_same _ _ _ _ _ e4 g4 hs,
    fun hs => TRY_FIELD_same _ _ _ _ _ e5 g5 hs⟩

/-- Witness of C14: the analysis of a concrete message with From, To and Subject fields
and no Cc or Bcc field. -/
theorem C14_envelope_values_witness :
    ∃ mp, messageParser.new envelopeMessage datetime.zero = .ok mp ∧
      mp.getExpeditor = exampleSender ∧ mp.getRecipients = [exampleRecipient] ∧
      mp.getCopyRecipients = [] ∧ mp.getBlindCopyRecipients = [] ∧
      mp.getSubject = "Greetings" :=
  have hnew : messageParser.new envelopeMessage datetime.zero =
      .ok ({ messageParser.init with
              m_from := exampleSender, m_to := [exampleRecipient],
              m_subject := "Greetings" }.addTextParts
        [{ kind := .plainTextPart, message := envelopeMessage, parent := envelopeMessage,
           part := envelopeMessage }]) := rfl
  have h := (C14_envelope_values envelopeMessage datetime.zero).2 _ hnew
  ⟨_, hnew, h.1.1 _ rfl, h.2.1.1 _ rfl, h.2.2.1.2 rfl, h.2.2.2.1.2 rfl, h.2.2.2.2.1.1 _ rfl⟩

/-- C15 (as stated, refuted): the From field of `textFromMessage` is a text field; the
analysis does not complete, it ends in `std::bad_cast`, and no sender is resolved. -/
theorem C15_counterexample :
    textFromMessage.getHeader.findField fields.FROM =
        .ok (.textField { m_name := fields.FROM, m_value := "Ann" }) ∧
      messageParser.new textFromMessage datetime.zero = .error .bad_cast ∧
      ¬ ∃ mp, messageParser.new textFromMessage datetime.zero = .ok mp ∧
        mp.getExpeditor = { m_name := "", m_email := "" } := by
  have h : messageParser.new textFromMessage datetime.zero = .error .bad_cast := rfl
  refine ⟨rfl, h, ?_⟩
  rintro ⟨mp, hmp, _⟩
  rw [h] at hmp
  contradiction

/-- C15 (amended): for every message whose header has a From field that is not a mailbox
field, the analysis does not complete: the cast of `TRY_FIELD` raises `std::bad_cast`,
which the handler for `no_such_field` does not catch, and no sender is resolved. -/
theorem C15_mistyped_from_aborts (msg : bodyPart) (now : datetime) (f : headerField)
    (hfield : msg.getHeader.findField fields.FROM = .ok f)
    (hclass : ∀ g, f ≠ .mailboxField g) :
    messageParser.new msg now = .error .bad_cast := by
  have hcast : msg.getHeader.findMailbox fields.FROM = .error .bad_cast := by
    unfold header.findMailbox
    rw [hfield]
    cases f <;> first | rfl | exact absurd rfl (hclass _)
  simp [messageParser.new, messageParser.parse, resolveEnvelope, hcast, TRY_FIELD_bad_cast]

/-- Witness of C15: the theorem applied to a concrete message. -/
theorem C15_mistyped_from_aborts_witness :
    messageParser.new textFromMessage datetime.zero = .error .bad_cast :=
  C15_mistyped_from_aborts textFromMessage datetime.zero
    (.textField { m_name := fields.FROM, m_value := "Ann" }) rfl
    (fun g h => by cases h)

/-! ## The text-part registry, folder listeners and address lists -/

/-- The map of a freshly constructed registry. -/
theorem new_nameMap :
    textPartFactory.new.m_nameMap =
      [("text/plain", .plainTextPart), ("text/html", .htmlTextPart)] := by
  decide

/-- C16: for a freshly constructed text-part registry, whose map holds exactly the keys
text/plain and text/html, `create (t)` returns the plain-text constructor when the
generated name of `t` is text/plain, the HTML constructor when it is text/html, and
fails with `no_factory_available` for every other media type: it returns a part
exactly when the generated name is one of the two keys. -/
theorem C16_fresh_registry_create (t : mediaType) :
    textPartFactory.new.m_nameMap =
        [("text/plain", .plainTextPart), ("text/html", .htmlTextPart)] ∧
      (t.generate = "text/plain" → textPartFactory.new.create t = .ok .plainTextPart) ∧
      (t.generate = "text/html" → textPartFactory.new.create t = .ok .htmlTextPart) ∧
      (t.generate ≠ "text/plain" → t.generate ≠ "text/html" →
        textPartFactory.new.create t = .error .no_factory_available) ∧
      ((∃ kind, textPartFactory.new.create t = .ok kind) ↔
        (t.generate = "text/plain" ∨ t.generate = "text/html")) := by
  have hplain : t.generate = "text/plain" →
      textPartFactory.new.create t = .ok .plainTextPart := by
    intro h
    unfold textPartFactory.create
    rw [new_nameMap, h]
    rfl
  have hhtml : t.generate = "text/html" →
      textPartFactory.new.create t = .ok .htmlTextPart := by
    intro h
    unfold textPartFactory.create
    rw [new_nameMap, h]
    rfl
  have hother : t.generate ≠ "text/plain" → t.generate ≠ "text/html" →
      textPartFactory.new.create t = .error .no_factory_available := by
    intro h1 h2
    have b1 : (t.generate == "text/plain") = false := by simpa using h1
    have b2 : (t.generate == "text/html") = false := by simpa using h2
    unfold textPartFactory.create
    rw [new_nameMap]
    simp only [List.lookup, b1, b2]
  refine ⟨new_nameMap, hplain, hhtml, hother, ?_⟩
  constructor
  · rintro ⟨kind, hk⟩
    by_cases h1 : t.generate = "text/plain"
    · exact Or.inl h1
    · by_cases h2 : t.generate = "text/html"
      · exact Or.inr h2
      · rw [hother h1 h2] at hk
        contradiction
  · rintro (h | h)
    · exact ⟨_, hplain h⟩
    · exact ⟨_, hhtml h⟩

theorem std_remove_loop_length (value : Nat) (n i result : Nat) (buf : List Nat) :
    (std_remove_loop value n i result buf).length = buf.length := by
  induction n generalizing i result buf with
  | zero => simp [std_remove_loop]
  | succ n ih =>
    rw [std_remove_loop]
    split
    · rfl
    · split
      · rw [ih]
        simp
      · rw [ih]

theorem std_remove_length (xs : List Nat) (value : Nat) :
    (std_remove xs value).length = xs.length := by
  unfold std_remove
  simp only []
  split
  · rfl
  · exact std_remove_loop_length _ _ _ _ _

/-- The loop of `std::remove` on a buffer made of the finished front `A`, the positions
`G` between the write and the read position, and the unread `rest`. -/
theorem std_remove_loop_eq (value : Nat) (rest : List Nat) :
    ∀ (A G : List Nat) (i r : Nat), G ≠ [] → i = A.length + G.length → r = A.length →
      std_remove_loop value rest.length i r (A ++ G ++ rest) =
        (A ++ rest.filter (fun x => x != value)) ++
          (G ++ rest).drop (rest.filter (fun x => x != value)).length := by
  induction rest with
  | nil =>
    intro A G i r _ _ _
    simp [std_remove_loop]
  | cons x rest ih =>
    intro A G i r hG hi hr
    obtain ⟨g, G', rfl⟩ := List.exists_cons_of_ne_nil hG
    have hget : (A ++ g :: G' ++ x :: rest)[i]? = some x := by
      rw [hi, ← List.length_append, List.getElem?_append_right (Nat.le_refl _)]
      simp
    rw [List.length_cons, std_remove_loop, hget]
    simp only []
    by_cases hx : x = value
    · have hb : (x != value) = false := by simp [hx]
      rw [if_neg (not_not.mpr hx)]
      have := ih A (g :: G' ++ [x]) (i + 1) r (by simp) (by simp [hi]; omega) hr
      simp only [List.append_assoc, List.cons_append, List.nil_append,
        List.singleton_append] at this
      simp only [List.append_assoc, List.cons_append]
      rw [this, List.filter_cons, hb]
      simp
    · have hb : (x != value) = true := by simp [hx]
      rw [if_pos hx]
      have hset : (A ++ g :: G' ++ x :: rest).set r x =
          (A ++ [x]) ++ (G' ++ [x]) ++ rest := by
        rw [hr]
        simp [List.set_append]
      rw [hset, ih (A ++ [x]) (G' ++ [x]) (i + 1) (r + 1) (by simp)
        (by simp [hi]; omega) (by simp [hr]), List.filter_cons, hb]
      simp

theorem takeWhile_filter_self (value : Nat) (xs : List Nat) :
    (xs.takeWhile (fun x => x != value)).filter (fun x => x != value) =
      xs.takeWhile (fun x => x != value) := by
  induction xs with
  | nil => simp
  | cons x xs ih =>
    by_cases hx : (x != value) = true
    · simp [List.takeWhile_cons, hx, List.filter_cons, ih]
    · simp [List.takeWhile_cons, hx]

/-- The container after `std::remove`: the kept elements, in order, followed by what the
positions past them held before the call. -/
theorem std_remove_eq (xs : List Nat) (value : Nat) :
    std_remove xs value =
      xs.filter (fun x => x != value) ++
        xs.drop (xs.filter (fun x => x != value)).length := by
  unfold std_remove
  simp only []
  have hsplit := List.takeWhile_append_dropWhile (fun x => x != value) xs
  generalize hpre : xs.takeWhile (fun x => x != value) = pre at hsplit
  have hpref : pre.filter (fun x => x != value) = pre := by
    rw [← hpre]; exact takeWhile_filter_self value xs
  cases hpost : xs.dropWhile (fun x => x != value) with
  | nil =>
    rw [hpost, List.append_nil] at hsplit
    subst hsplit
    simp [hpref]
  | cons v post =>
    rw [hpost] at hsplit
    have hv : v = value := by
      have := List.head_dropWhile_not (fun x => x != value) xs
        (by rw [hpost]; simp)
      simp only [hpost, List.head_cons] at this
      simpa using this
    subst hv
    subst hsplit
    have hne : ¬ pre.length = (pre ++ v :: post).length := by simp
    rw [if_neg hne]
    have hlen : (pre ++ v :: post).length - (pre.length + 1) = post.length := by
      simp; omega
    rw [hlen]
    have := std_remove_loop_eq v post pre [v] (pre.length + 1) pre.length (by simp)
      (by simp) rfl
    simp only [List.append_assoc, List.singleton_append] at this
    rw [this]
    simp [List.filter_append, hpref, List.filter_cons]

theorem foldl_addMessageChangedListener (f : folder) (ls : List listenerPtr) :
    ls.foldl folder.addMessageChangedListener f =
      { f with m_messageChangedListeners := f.m_messageChangedListeners ++ ls } := by
  induction ls generalizing f with
  | nil => simp
  | cons l ls ih => simp [ih, folder.addMessageChangedListener]

theorem foldl_addMessageCountListener (f : folder) (ls : List listenerPtr) :
    ls.foldl folder.addMessageCountListener f =
      { f with m_messageCountListeners := f.m_messageCountListeners ++ ls } := by
  induction ls generalizing f with
  | nil => simp
  | cons l ls ih => simp [ih, folder.addMessageCountListener]

theorem foldl_addFolderListener (f : folder) (ls : List listenerPtr) :
    ls.foldl folder.addFolderListener f =
      { f with m_folderListeners := f.m_folderListeners ++ ls } := by
  induction ls generalizing f with
  | nil => simp
  | cons l ls ih => simp [ih, folder.addFolderListener]

/-- C17: for every sequence `ls` of `addMessageChangedListener` calls with no removal in
between, made on a folder `f`, `notifyMessageChanged` dispatches the event to the
listeners `f` already had and then exactly once per registration of `ls`, in
registration order, a listener added twice being dispatched to twice; on a folder
without listeners the dispatches are exactly those of `ls`; the other two listener lists
are untouched.  Likewise for the message-count and the folder listeners. -/
theorem C17_notify_in_registration_order (f : folder) (ls : List listenerPtr)
    (event : folderEventId) :
    ((ls.foldl folder.addMessageChangedListener f).notifyMessageChanged event =
        f.notifyMessageChanged event ++ ls.map (fun l => (event, l)) ∧
      (ls.foldl folder.addMessageChangedListener folder.init).notifyMessageChanged event =
        ls.map (fun l => (event, l)) ∧
      (ls.foldl folder.addMessageChangedListener f).notifyMessageCount event =
        f.notifyMessageCount event ∧
      (ls.foldl folder.addMessageChangedListener f).notifyFolder event =
        f.notifyFolder event) ∧
    ((ls.foldl folder.addMessageCountListener f).notifyMessageCount event =
        f.notifyMessageCount event ++ ls.map (fun l => (event, l)) ∧
      (ls.foldl folder.addMessageCountListener folder.init).notifyMessageCount event =
        ls.map (fun l => (event, l)) ∧
      (ls.foldl folder.addMessageCountListener f).notifyMessageChanged event =
        f.notifyMessageChanged event ∧
      (ls.foldl folder.addMessageCountListener f).notifyFolder event =
        f.notifyFolder event) ∧
    ((ls.foldl folder.addFolderListener f).notifyFolder event =
        f.notifyFolder event ++ ls.map (fun l => (event, l)) ∧
      (ls.foldl folder.addFolderListener folder.init).notifyFolder event =
        ls.map (fun l => (event, l)) ∧
      (ls.foldl folder.addFolderListener f).notifyMessageChanged event =
        f.notifyMessageChanged event ∧
      (ls.foldl folder.addFolderListener f).notifyMessageCount event =
        f.notifyMessageCount event) := by
  simp [foldl_addMessageChangedListener, foldl_addMessageCountListener,
    foldl_addFolderListener, folder.notifyMessageChanged, folder.notifyMessageCount,
    folder.notifyFolder, folder.init]

/-- C18 (code evaluated at failing inputs): after `removeMessageChangedListener (2)` on the
listeners 1, 2 the listener 2 is still dispatched to; on the listeners 2, 1 the listener
1 is dispatched to twice though it was registered once.  Likewise for the message-count
and the folder listeners. -/
theorem C18_removed_listener_still_notified :
    (({ folder.init with m_messageChangedListeners := [1, 2] }.removeMessageChangedListener
          2).notifyMessageChanged 7 = [(7, 1), (7, 2)] ∧
      ({ folder.init with m_messageChangedListeners := [2, 1] }.removeMessageChangedListener
          2).notifyMessageChanged 7 = [(7, 1), (7, 1)]) ∧
    (({ folder.init with m_messageCountListeners := [1, 2] }.removeMessageCountListener
          2).notifyMessageCount 7 = [(7, 1), (7, 2)] ∧
      ({ folder.init with m_messageCountListeners := [2, 1] }.removeMessageCountListener
          2).notifyMessageCount 7 = [(7, 1), (7, 1)]) ∧
    (({ folder.init with m_folderListeners := [1, 2] }.removeFolderListener
          2).notifyFolder 7 = [(7, 1), (7, 2)] ∧
      ({ folder.init with m_folderListeners := [2, 1] }.removeFolderListener
          2).notifyFolder 7 = [(7, 1), (7, 1)]) := by
  decide

/-- C19: for every folder and every listener argument, each of the three
`remove*Listener` operations leaves the number of entries of its listener list
unchanged: the list becomes the kept entries, compacted to the front in their order,
followed by what the positions past them held before; and the operation leaves the two
listener lists of the other kinds untouched. -/
theorem C19_remove_keeps_size_and_other_lists (f : folder) (l : listenerPtr) :
    ((f.removeMessageChangedListener l).m_messageChangedListeners.length =
        f.m_messageChangedListeners.length ∧
      (f.removeMessageChangedListener l).m_messageChangedListeners =
        f.m_messageChangedListeners.filter (fun x => x != l) ++
          f.m_messageChangedListeners.drop
            (f.m_messageChangedListeners.filter (fun x => x != l)).length ∧
      (f.removeMessageChangedListener l).m_messageCountListeners =
        f.m_messageCountListeners ∧
      (f.removeMessageChangedListener l).m_folderListeners = f.m_folderListeners) ∧
    ((f.removeMessageCountListener l).m_messageCountListeners.length =
        f.m_messageCountListeners.length ∧
      (f.removeMessageCountListener l).m_messageCountListeners =
        f.m_messageCountListeners.filter (fun x => x != l) ++
          f.m_messageCountListeners.drop
            (f.m_messageCountListeners.filter (fun x => x != l)).length ∧
      (f.removeMessageCountListener l).m_messageChangedListeners =
        f.m_messageChangedListeners ∧
      (f.removeMessageCountListener l).m_folderListeners = f.m_folderListeners) ∧
    ((f.removeFolderListener l).m_folderListeners.length = f.m_folderListeners.length ∧
      (f.removeFolderListener l).m_folderListeners =
        f.m_folderListeners.filter (fun x => x != l) ++
          f.m_folderListeners.drop (f.m_folderListeners.filter (fun x => x != l)).length ∧
      (f.removeFolderListener l).m_messageChangedListeners =
        f.m_messageChangedListeners ∧
      (f.removeFolderListener l).m_messageCountListeners = f.m_messageCountListeners) :=
  ⟨⟨std_remove_length _ _, std_remove_eq _ _, rfl, rfl⟩,
    ⟨std_remove_length _ _, std_remove_eq _ _, rfl, rfl⟩,
    ⟨std_remove_length _ _, std_remove_eq _ _, rfl, rfl⟩⟩

theorem takeWhile_append_anchor (anchor : addressPtr) (l : List addressPtr)
    (h : anchor ∈ l) :
    ∃ post, l.dropWhile (fun a => a != anchor) = anchor :: post ∧
      l = l.takeWhile (fun a => a != anchor) ++ anchor :: post ∧
      anchor ∉ l.takeWhile (fun a => a != anchor) := by
  induction l with
  | nil => simp at h
  | cons x xs ih =>
    by_cases hx : x = anchor
    · subst hx
      exact ⟨xs, by simp, by simp, by simp⟩
    · have hb : (x != anchor) = true := by simpa using hx
      have hmem : anchor ∈ xs := by
        rcases List.mem_cons.mp h with h | h
        · exact absurd h.symm hx
        · exact h
      obtain ⟨post, h1, h2, h3⟩ := ih hmem
      refine ⟨post, ?_, ?_, ?_⟩
      · simp [List.dropWhile_cons, hb, h1]
      · simp only [List.takeWhile_cons, hb, if_true, List.cons_append]
        rw [← h2]
      · simp only [List.takeWhile_cons, hb, if_true, List.mem_cons, not_or]
        exact ⟨fun h => hx h.symm, h3⟩

/-- C20: for every address list and every pair of addresses (anchor, x): when the anchor
is not a member of the list, `insertAddressBefore (anchor, x)`, `insertAddressAfter
(anchor, x)` and `removeAddress (anchor)` fail with `no_such_address` and leave the list
unmodified; when the anchor is a member, `insertAddressBefore (anchor, x)` succeeds and
the new list is the old one with `x` placed immediately before the first position of the
anchor, every other entry keeping its place in the order. -/
theorem C20_anchor_operations (m_list : List addressPtr) (anchor x : addressPtr) :
    (anchor ∉ m_list →
      addressList.insertAddressBefore m_list anchor x = (.error .no_such_address, m_list) ∧
      addressList.insertAddressAfter m_list anchor x = (.error .no_such_address, m_list) ∧
      addressList.removeAddress m_list anchor = (.error .no_such_address, m_list)) ∧
    (anchor ∈ m_list →
      ∃ pre post, m_list = pre ++ anchor :: post ∧ anchor ∉ pre ∧
        addressList.insertAddressBefore m_list anchor x =
          (.ok (), pre ++ x :: anchor :: post) ∧
        (pre ++ x :: anchor :: post).eraseIdx pre.length = m_list) := by
  constructor
  · intro h
    simp [addressList.insertAddressBefore, addressList.insertAddressAfter,
      addressList.removeAddress, h]
  · intro h
    obtain ⟨post, h1, h2, h3⟩ := takeWhile_append_anchor anchor m_list h
    refine ⟨m_list.takeWhile (fun a => a != anchor), post, h2, h3, ?_, ?_⟩
    · simp [addressList.insertAddressBefore, h, h1]
    · rw [List.eraseIdx_append_of_length_le (Nat.le_refl _)]
      simp
      exact h2.symm

/-! ## Further classification properties -/

/-- The flag computed for a part whose disposition is inline. -/
theorem isAttachment_of_inline (hdr : header) (cdf : genericField disposition)
    (hcd : hdr.findContentDisposition = .ok cdf)
    (hname : cdf.getValue.getName = dispositionTypes.INLINE) :
    isAttachment hdr = .ok (false, none) := by
  simp [isAttachment, hcd, hname, catch_no_such_field]

/-- C21: for every part (in particular every part strictly below the root) that has a
Content-Disposition field whose disposition name is inline, the flag `isAttachment` is
false whatever the Content-Type field is, present with any media type, absent, or not
even a content-type field: the loop body leaves the state as it is, the part does not
satisfy the attachment rule, and in every completed walk the part is not among the
classified parts the attachment list is built from. -/
theorem C21_inline_is_never_an_attachment (p : bodyPart) (cdf : genericField disposition)
    (hcd : p.getHeader.findContentDisposition = .ok cdf)
    (hname : cdf.getValue.getName = dispositionTypes.INLINE) :
    isAttachment p.getHeader = .ok (false, none) ∧
      (∀ mp, findAttachmentsStep p mp = .ok mp) ∧
      p.attachmentRule = false ∧
      ∀ msg mp mp1, findAttachments msg mp = .ok mp1 →
        mp1.m_attach =
          mp.m_attach ++
            (msg.subParts.filter bodyPart.attachmentRule).map bodyPart.attachmentOf ∧
        p ∉ msg.subParts.filter bodyPart.attachmentRule := by
  have hrule : p.attachmentRule = false := by
    simp [bodyPart.attachmentRule, hcd, hname]
  refine ⟨isAttachment_of_inline _ cdf hcd hname, ?_, hrule, ?_⟩
  · intro mp
    simp [findAttachmentsStep, isAttachment_of_inline _ cdf hcd hname]
  · intro msg mp mp1 h
    rw [findAttachments_ok msg mp mp1 h]
    refine ⟨pushAttachments_attach _ _, ?_⟩
    intro hmem
    have := (List.mem_filter.mp hmem).2
    rw [hrule] at this
    contradiction

/-- Witness of C21: the theorem applied to the inline image of a concrete message. -/
theorem C21_inline_is_never_an_attachment_witness :
    isAttachment inlineJpegLeaf.getHeader = .ok (false, none) ∧
      ∃ mp1, findAttachments inlineImageMessage messageParser.init = .ok mp1 ∧
        mp1.m_attach = [] :=
  have h := C21_inline_is_never_an_attachment inlineJpegLeaf (exampleDisposition "inline")
    rfl rfl
  ⟨h.1, messageParser.init, rfl, (h.2.2.2 inlineImageMessage messageParser.init _ rfl).1⟩

mutual
/-- In a completed walk of `findAttachments` the loop body completed on every part below
`part`. -/
theorem findAttachments_steps (part : bodyPart) (mp mp1 : messageParser)
    (h : findAttachments part mp = .ok mp1) :
    ∀ q ∈ part.subParts, ∃ st st1, findAttachmentsStep q st = .ok st1 := by
  cases part with
  | mk hd c e parts =>
    rw [findAttachments] at h
    rw [subParts_mk]
    exact findAttachmentsLoop_steps parts mp mp1 h
/-- The loop of `findAttachments` over a list of siblings, likewise. -/
theorem findAttachmentsLoop_steps (parts : List bodyPart) (mp mp1 : messageParser)
    (h : findAttachmentsLoop parts mp = .ok mp1) :
    ∀ q ∈ subPartsList parts, ∃ st st1, findAttachmentsStep q st = .ok st1 := by
  cases parts with
  | nil =>
    intro q hq
    simp [subPartsList] at hq
  | cons p rest =>
    rw [findAttachmentsLoop] at h
    split at h
    · contradiction
    · rename_i mpA hstep
      split at h
      · contradiction
      · rename_i mpB hsub
        intro q hq
        rw [subPartsList] at hq
        rcases List.mem_cons.mp hq with rfl | hq
        · exact ⟨mp, mpA, hstep⟩
        · rcases List.mem_append.mp hq with hq | hq
          · by_cases hc : p.getPartCount = 0
            · have : p.getParts = [] := List.length_eq_zero.mp hc
              rw [subParts_leaf p this] at hq
              simp at hq
            · rw [if_pos hc] at hsub
              exact findAttachments_steps p mpA mpB hsub q hq
          · exact findAttachmentsLoop_steps rest mpB mp1 h q hq
end

theorem findField_of_findContentType (hdr : header)
    (h : hdr.findContentType = .error .no_such_field) :
    hdr.findField fields.CONTENT_TYPE = .error .no_such_field := by
  unfold header.findContentType at h
  rcases findField_cases hdr fields.CONTENT_TYPE with ⟨f, hf⟩ | hf
  · rw [hf] at h
    cases f <;> simp [headerField.cast_contentTypeField] at h
  · exact hf

theorem findField_of_findContentDescription (hdr : header)
    (h : hdr.findContentDescription = .error .no_such_field) :
    hdr.findField fields.CONTENT_DESCRIPTION = .error .no_such_field := by
  unfold header.findContentDescription at h
  rcases findField_cases hdr fields.CONTENT_DESCRIPTION with ⟨f, hf⟩ | hf
  · rw [hf] at h
    cases f <;> simp [headerField.cast_textField] at h
  · exact hf

/-- The attachment pushed by a completed loop body on a classified part. -/
theorem findAttachmentsStep_attachment (p : bodyPart) (mp mp1 : messageParser)
    (h : findAttachmentsStep p mp = .ok mp1) (hrule : p.attachmentRule = true) :
    mp1.m_attach = mp.m_attach ++ [p.attachmentOf] ∧
      ((∃ ctf, p.getHeader.findContentType = .ok ctf ∧ p.attachmentOf.m_type = ctf.getValue) ∨
        (p.getHeader.findField fields.CONTENT_TYPE = .error .no_such_field ∧
          p.attachmentOf.m_type =
            { m_type := mediaTypes.APPLICATION,
              m_subType := mediaTypes.APPLICATION_OCTET_STREAM })) ∧
      ((∃ cd, p.getHeader.findContentDescription = .ok cd ∧
          p.attachmentOf.m_desc = cd.getValue) ∨
        (p.getHeader.findField fields.CONTENT_DESCRIPTION = .error .no_such_field ∧
          p.attachmentOf.m_desc = "")) := by
  have hpush : mp1 = mp.pushAttachment p := by
    rcases findAttachmentsStep_cases p mp with hc | hc
    · rw [hc] at h; contradiction
    · rw [hc, hrule] at h
      simp only [if_true, Except.ok.injEq] at h
      exact h.symm
  refine ⟨by rw [hpush]; rfl, ?_, ?_⟩
  · rcases findContentType_cases p.getHeader with ⟨ctf, hct⟩ | hct | hct
    · exact Or.inl ⟨ctf, hct, by simp [bodyPart.attachmentOf, bodyPart.typeOrDefault, hct]⟩
    · exact Or.inr ⟨findField_of_findContentType _ hct,
        by simp [bodyPart.attachmentOf, bodyPart.typeOrDefault, hct]⟩
    · exfalso
      unfold findAttachmentsStep isAttachment attachmentType at h
      unfold bodyPart.attachmentRule at hrule
      rcases findContentDisposition_cases p.getHeader with ⟨cdf, hcd⟩ | hcd | hcd <;>
        simp [hcd, hct, catch_no_such_field] at h hrule
      simp [hrule] at h
  · rcases findContentDescription_cases p.getHeader with ⟨cd, hde⟩ | hde | hde
    · exact Or.inl ⟨cd, hde,
        by simp [bodyPart.attachmentOf, bodyPart.descriptionOrEmpty, hde]⟩
    · exact Or.inr ⟨findField_of_findContentDescription _ hde,
        by simp [bodyPart.attachmentOf, bodyPart.descriptionOrEmpty, hde]⟩
    · exfalso
      unfold findAttachmentsStep isAttachment attachmentType attachmentDescription at h
      unfold bodyPart.attachmentRule bodyPart.typeOrDefault at hrule
      rcases findContentDisposition_cases p.getHeader with ⟨cdf, hcd⟩ | hcd | hcd <;>
      rcases findContentType_cases p.getHeader with ⟨ctf, hct⟩ | hct | hct <;>
        simp [hcd, hct, hde, catch_no_such_field] at h hrule <;>
        simp [hrule] at h

/-- C22: for every part classified as an attachment, the attachment that stands for it in
the attachment list is built from that part's own body contents and body encoding, its
media type is the value of the part's Content-Type field or application/octet-stream
when that field is absent, and its description is the value of the part's
Content-Description field or the empty text when that field is absent.  The walk
completes on every tree whose Content-Disposition, Content-Type and Content-Description
fields have their own field classes. -/
theorem C22_attachment_built_from_its_part (msg : bodyPart) (mp : messageParser) :
    (msg.subPartsTyped = true → ∃ mp1, findAttachments msg mp = .ok mp1) ∧
      ∀ mp1, findAttachments msg mp = .ok mp1 →
        ∀ (i : Nat) (q : bodyPart),
          (msg.subParts.filter bodyPart.attachmentRule)[i]? = some q →
            ∃ a, mp1.getAttachmentAt (mp.m_attach.length + i) = some a ∧ a.builtFrom q := by
  refine ⟨fun htyped => ⟨_, findAttachments_eq msg mp ((subPartsTyped_iff msg).mp htyped)⟩,
    ?_⟩
  intro mp1 hok i q hq
  have hmem : q ∈ msg.subParts.filter bodyPart.attachmentRule := List.getElem?_mem hq
  obtain ⟨hsub, hrule⟩ := List.mem_filter.mp hmem
  obtain ⟨st, st1, hstep⟩ := findAttachments_steps msg mp mp1 hok q hsub
  obtain ⟨_, htype, hdesc⟩ := findAttachmentsStep_attachment q st st1 hstep hrule
  refine ⟨q.attachmentOf, ?_, rfl, rfl, htype, hdesc⟩
  rw [findAttachments_ok msg mp mp1 hok]
  simp [messageParser.getAttachmentAt, pushAttachments_attach,
    List.getElem?_append_right, hq]

/-- Witness of C22: the theorem applied to a concrete message whose third part is an
attachment with a description. -/
theorem C22_attachment_built_from_its_part_witness :
    ∃ mp1, findAttachments describedMessage messageParser.init = .ok mp1 ∧
      ∃ a, mp1.getAttachmentAt 1 = some a ∧ a.builtFrom describedPdfLeaf :=
  have h := C22_attachment_built_from_its_part describedMessage messageParser.init
  (h.1 (by decide)).elim fun mp1 hmp1 =>
    ⟨mp1, hmp1, h.2 mp1 hmp1 1 describedPdfLeaf
      (List.getElem?_eq_some.mpr ⟨by decide, rfl⟩)⟩

/-- The stages of a completed analysis: the envelope, then the attachments of the
classified parts, then the text parts. -/
theorem new_ok_stages (msg : bodyPart) (now : datetime) (mp : messageParser)
    (h : messageParser.new msg now = .ok mp) :
    ∃ mp0, resolveEnvelope messageParser.init msg.getHeader now = .ok mp0 ∧
      mp0.m_attach = [] ∧ mp0.m_attachInfo = [] ∧ mp0.m_textParts = [] ∧
      findAttachments msg mp0 =
        .ok (mp0.pushAttachments (msg.subParts.filter bodyPart.attachmentRule)) ∧
      findTextParts msg msg
        (mp0.pushAttachments (msg.subParts.filter bodyPart.attachmentRule)) = .ok mp := by
  unfold messageParser.new messageParser.parse at h
  split at h
  · contradiction
  · rename_i mp0 henv
    obtain ⟨ha, hi, ht⟩ := resolveEnvelope_lists _ _ _ _ henv
    refine ⟨mp0, henv, ha, hi, ht, ?_⟩
    split at h
    · contradiction
    · rename_i mp1 hatt
      have := findAttachments_ok msg mp0 mp1 hatt
      subst this
      exact ⟨hatt, h⟩

theorem findTextParts_single_absent (msg : bodyPart) (mp : messageParser)
    (hsingle : msg.getPartCount = 0)
    (hct : msg.getHeader.findField fields.CONTENT_TYPE = .error .no_such_field) :
    findTextParts msg msg mp =
      .ok (mp.addTextParts
        [{ kind := .plainTextPart, message := msg, parent := msg, part := msg }]) := by
  simp only [findTextParts, hsingle, if_true, singlePartType, findContentType_absent _ hct]
  simp [catch_no_such_field, create_text_plain, messageParser.addTextParts]

theorem findTextParts_single_text (msg : bodyPart) (mp : messageParser)
    (ctf : genericField mediaType) (kind : textPartKind) (hsingle : msg.getPartCount = 0)
    (hct : msg.getHeader.findContentType = .ok ctf)
    (htext : ctf.getValue.getType = mediaTypes.TEXT)
    (hkind : textPartFactory.getInstance.create ctf.getValue = .ok kind) :
    findTextParts msg msg mp =
      .ok (mp.addTextParts
        [{ kind := kind, message := msg, parent := msg, part := msg }]) := by
  simp only [findTextParts, hsingle, if_true, singlePartType, hct]
  simp [catch_no_such_field, htext, hkind, messageParser.addTextParts]

theorem findTextParts_single_other (msg : bodyPart) (mp : messageParser)
    (ctf : genericField mediaType) (hsingle : msg.getPartCount = 0)
    (hct : msg.getHeader.findContentType = .ok ctf)
    (hother : ctf.getValue.getType ≠ mediaTypes.TEXT) :
    findTextParts msg msg mp = .ok mp := by
  simp only [findTextParts, hsingle, if_true, singlePartType, hct]
  simp [catch_no_such_field, hother]

theorem findTextParts_single_le (msg : bodyPart) (mp mp1 : messageParser)
    (hsingle : msg.getPartCount = 0) (h : findTextParts msg msg mp = .ok mp1) :
    mp1.m_textParts.length ≤ mp.m_textParts.length + 1 := by
  simp only [findTextParts, hsingle, if_true] at h
  split at h
  · contradiction
  · split at h
    · split at h
      · contradiction
      · simp only [Except.ok.injEq] at h
        subst h
        simp
    · simp only [Except.ok.injEq] at h
      subst h
      simp

theorem new_single (msg : bodyPart) (now : datetime) (mp : messageParser)
    (hsingle : msg.getPartCount = 0) (h : messageParser.new msg now = .ok mp) :
    ∃ mp0, mp0.m_attach = [] ∧ mp0.m_attachInfo = [] ∧ mp0.m_textParts = [] ∧
      findTextParts msg msg mp0 = .ok mp := by
  obtain ⟨mp0, _, ha, hi, ht, _, htext⟩ := new_ok_stages msg now mp h
  have hsub : msg.subParts = [] := subParts_leaf msg (List.length_eq_zero.mp hsingle)
  rw [hsub] at htext
  exact ⟨mp0, ha, hi, ht, htext⟩

/-- C23: for every message whose body has no child parts, `findTextParts` adds at most
one text part: exactly one, built by the constructor registered for text/plain, when the
Content-Type field is absent; exactly one, built by the constructor registered for the
field's own media type, when the top-level type of the field is text and that media type
is registered; none when the field is present with another top-level type.  The
text-part list of every completed analysis of such a message is accordingly. -/
theorem C23_single_part_text_parts (msg : bodyPart) (hsingle : msg.getPartCount = 0) :
    ((msg.getHeader.findField fields.CONTENT_TYPE = .error .no_such_field →
        ∀ mp, findTextParts msg msg mp =
          .ok (mp.addTextParts
            [{ kind := .plainTextPart, message := msg, parent := msg, part := msg }])) ∧
      (∀ ctf kind, msg.getHeader.findContentType = .ok ctf →
        ctf.getValue.getType = mediaTypes.TEXT →
        textPartFactory.getInstance.create ctf.getValue = .ok kind →
        ∀ mp, findTextParts msg msg mp =
          .ok (mp.addTextParts
            [{ kind := kind, message := msg, parent := msg, part := msg }])) ∧
      (∀ ctf, msg.getHeader.findContentType = .ok ctf →
        ctf.getValue.getType ≠ mediaTypes.TEXT →
        ∀ mp, findTextParts msg msg mp = .ok mp) ∧
      ∀ mp mp1, findTextParts msg msg mp = .ok mp1 →
        mp1.m_textParts.length ≤ mp.m_textParts.length + 1) ∧
    ∀ now mp, messageParser.new msg now = .ok mp →
      mp.getTextPartCount ≤ 1 ∧
      (msg.getHeader.findField fields.CONTENT_TYPE = .error .no_such_field →
        mp.m_textParts =
          [{ kind := .plainTextPart, message := msg, parent := msg, part := msg }]) ∧
      (∀ ctf kind, msg.getHeader.findContentType = .ok ctf →
        ctf.getValue.getType = mediaTypes.TEXT →
        textPartFactory.getInstance.create ctf.getValue = .ok kind →
        mp.m_textParts = [{ kind := kind, message := msg, parent := msg, part := msg }]) ∧
      (∀ ctf, msg.getHeader.findContentType = .ok ctf →
        ctf.getValue.getType ≠ mediaTypes.TEXT → mp.m_textParts = []) := by
  refine ⟨⟨fun hct mp => findTextParts_single_absent msg mp hsingle hct,
    fun ctf kind hct htext hkind mp =>
      findTextParts_single_text msg mp ctf kind hsingle hct htext hkind,
    fun ctf hct hother mp => findTextParts_single_other msg mp ctf hsingle hct hother,
    fun mp mp1 h => findTextParts_single_le msg mp mp1 hsingle h⟩, ?_⟩
  intro now mp h
  obtain ⟨mp0, _, _, ht, htext⟩ := new_single msg now mp hsingle h
  refine ⟨?_, ?_, ?_, ?_⟩
  · have := findTextParts_single_le msg mp0 mp hsingle htext
    rw [ht] at this
    simpa [messageParser.getTextPartCount] using this
  · intro hct
    rw [findTextParts_single_absent msg mp0 hsingle hct] at htext
    simp only [Except.ok.injEq] at htext
    rw [← htext]
    simp [messageParser.addTextParts, ht]
  · intro ctf kind hct htxt hkind
    rw [findTextParts_single_text msg mp0 ctf kind hsingle hct htxt hkind] at htext
    simp only [Except.ok.injEq] at htext
    rw [← htext]
    simp [messageParser.addTextParts, ht]
  · intro ctf hct hother
    rw [findTextParts_single_other msg mp0 ctf hsingle hct hother] at htext
    simp only [Except.ok.injEq] at htext
    rw [← htext]
    exact ht

/-- Witness of C23: the theorem applied to a single-part text/html message. -/
theorem C23_single_part_text_parts_witness :
    findTextParts htmlMessage htmlMessage messageParser.init =
      .ok (messageParser.init.addTextParts
        [{ kind := .htmlTextPart, message := htmlMessage, parent := htmlMessage,
           part := htmlMessage }]) :=
  (C23_single_part_text_parts htmlMessage rfl).1.2.1
    { m_name := fields.CONTENT_TYPE,
      m_value := { m_type := mediaTypes.TEXT, m_subType := mediaTypes.TEXT_HTML } }
    .htmlTextPart rfl rfl rfl messageParser.init

theorem findSubTextParts_false (msg part : bodyPart) (mp mp1 : messageParser) (b : Bool)
    (h : findSubTextParts msg part mp = .ok (b, mp1)) :
    b = false ∧ mp1 = mp.addTextParts (allTextParts msg part) := by
  rcases findSubTextParts_cases msg part mp with hc | hc
  · rw [hc] at h; contradiction
  · rw [hc] at h
    simp only [Except.ok.injEq, Prod.mk.injEq] at h
    exact ⟨h.1.symm, h.2.symm⟩

theorem findSubTextPartsLoop_visits (msg : bodyPart) (parts : List bodyPart)
    (mp : messageParser) :
    findSubTextPartsLoop msg parts false mp =
      match visitEveryChild msg parts mp with
      | .error e => .error e
      | .ok mp1 => .ok (false, mp1) := by
  induction parts generalizing mp with
  | nil => simp [findSubTextPartsLoop, visitEveryChild]
  | cons p rest ih =>
    rw [findSubTextPartsLoop, visitEveryChild]
    simp only [Bool.false_eq_true, if_false]
    rcases findSubTextParts_cases msg p mp with hc | hc
    · rw [hc]
    · rw [hc]
      exact ih _

/-- C24: for every finite part tree, `findSubTextParts` returns false whenever it returns,
and it returns on every tree whose Content-Type fields have their own field class;
consequently the sibling loop, entered with `found` false, is the descent that runs
`findSubTextParts` on every child in order without ever stopping early. -/
theorem C24_findSubTextParts_returns_false (msg part : bodyPart) (mp : messageParser) :
    (part.subPartsContentTyped = true →
        ∃ mp1, findSubTextParts msg part mp = .ok (false, mp1)) ∧
      (∀ b mp1, findSubTextParts msg part mp = .ok (b, mp1) → b = false) ∧
      ∀ parts st, findSubTextPartsLoop msg parts false st =
        match visitEveryChild msg parts st with
        | .error e => .error e
        | .ok st1 => .ok (false, st1) :=
  ⟨fun htyped => ⟨_, findSubTextParts_eq msg part mp
      ((subPartsContentTyped_iff part).mp htyped)⟩,
    fun b mp1 h => (findSubTextParts_false msg part mp mp1 b h).1,
    fun parts st => findSubTextPartsLoop_visits msg parts st⟩

theorem level_parts (msg part : bodyPart) (parts : List bodyPart) :
    ((parts.filter bodyPart.isTextChild).filterMap (textPartOf msg part)).map
        (fun tp => tp.part) =
      parts.filter bodyPart.qualifiesAsText := by
  induction parts with
  | nil => simp
  | cons p rest ih =>
    by_cases ht : p.isTextChild = true
    · cases hk : p.registeredKind with
      | none =>
        simp [List.filter_cons, ht, textPartOf, hk, bodyPart.qualifiesAsText, ih]
      | some k =>
        simp [List.filter_cons, ht, textPartOf, hk, bodyPart.qualifiesAsText, ih]
    · simp [List.filter_cons, ht, bodyPart.qualifiesAsText, ih]

mutual
/-- The parts the text parts of a tree are built from are, up to order, the qualifying
parts below the root. -/
theorem allTextParts_perm (msg part : bodyPart) :
    ((allTextParts msg part).map (fun tp => tp.part)).Perm
      (part.subParts.filter bodyPart.qualifiesAsText) := by
  cases part with
  | mk hd c e parts =>
    rw [allTextParts, subParts_mk, List.map_append]
    have hl : (levelTextParts msg (bodyPart.mk hd c e parts)).map (fun tp => tp.part) =
        parts.filter bodyPart.qualifiesAsText :=
      level_parts msg (bodyPart.mk hd c e parts) parts
    rw [hl]
    exact allTextPartsList_perm msg parts
/-- The text parts found inside a list of siblings, likewise. -/
theorem allTextPartsList_perm (msg : bodyPart) (parts : List bodyPart) :
    (parts.filter bodyPart.qualifiesAsText ++
        (allTextPartsList msg parts).map (fun tp => tp.part)).Perm
      ((subPartsList parts).filter bodyPart.qualifiesAsText) := by
  cases parts with
  | nil => simp [allTextPartsList, subPartsList]
  | cons p rest =>
    have ih1 := allTextParts_perm msg p
    have ih2 := allTextPartsList_perm msg rest
    rw [allTextPartsList, subPartsList, List.map_append]
    have hsplit : (p :: (p.subParts ++ subPartsList rest)).filter bodyPart.qualifiesAsText =
        [p].filter bodyPart.qualifiesAsText ++
          (p.subParts.filter bodyPart.qualifiesAsText ++
            (subPartsList rest).filter bodyPart.qualifiesAsText) := by
      rw [← List.filter_append, ← List.filter_append]
      rfl
    have hsplit2 : (p :: rest).filter bodyPart.qualifiesAsText =
        [p].filter bodyPart.qualifiesAsText ++ rest.filter bodyPart.qualifiesAsText := by
      rw [← List.filter_append]
      rfl
    rw [hsplit, hsplit2, List.append_assoc]
    apply List.Perm.append_left
    rw [← List.append_assoc]
    refine List.Perm.trans (List.Perm.append_right _ List.perm_append_comm) ?_
    rw [List.append_assoc]
    exact List.Perm.append ih1 ih2
end

theorem findTextParts_container (msg part : bodyPart) (mp mp1 : messageParser)
    (hcontainer : part.getPartCount ≠ 0) (h : findTextParts msg part mp = .ok mp1) :
    mp1 = mp.addTextParts (allTextParts msg part) := by
  simp only [findTextParts, hcontainer, if_false] at h
  rcases findSubTextParts_cases msg part mp with hc | hc
  · rw [hc] at h; contradiction
  · rw [hc] at h
    simp only [Except.ok.injEq] at h
    exact h.symm

theorem findTextParts_container_typed (msg part : bodyPart) (mp : messageParser)
    (hcontainer : part.getPartCount ≠ 0) (htyped : part.subPartsContentTyped = true) :
    findTextParts msg part mp = .ok (mp.addTextParts (allTextParts msg part)) := by
  simp only [findTextParts, hcontainer, if_false]
  rw [findSubTextParts_eq msg part mp ((subPartsContentTyped_iff part).mp htyped)]

theorem qualifiesAsText_contentType (p : bodyPart) (h : p.qualifiesAsText = true) :
    ∃ ctf, p.getHeader.findContentType = .ok ctf := by
  unfold bodyPart.qualifiesAsText at h
  simp only [Bool.and_eq_true] at h
  exact isTextChild_findContentType p h.1

theorem levelTextParts_mem (msg part : bodyPart) (tp : textPart)
    (h : tp ∈ levelTextParts msg part) :
    tp.message = msg ∧ tp.parent = part ∧ tp.part ∈ part.getParts ∧
      tp.part.registeredKind = some tp.kind := by
  unfold levelTextParts at h
  obtain ⟨p, hp, htp⟩ := List.mem_filterMap.mp h
  have hp1 := (List.mem_filter.mp hp).1
  unfold textPartOf at htp
  cases hk : p.registeredKind with
  | none => simp [hk] at htp
  | some k =>
    simp only [hk, Option.some.injEq] at htp
    subst htp
    exact ⟨rfl, rfl, hp1, hk⟩

mutual
/-- Every text part of a tree is built for the message, from a child of a container at
or below the root, by the constructor registered for the media type of that child. -/
theorem allTextParts_mem (msg part : bodyPart) (tp : textPart)
    (h : tp ∈ allTextParts msg part) :
    tp.message = msg ∧ (tp.parent = part ∨ tp.parent ∈ part.subParts) ∧
      tp.part ∈ tp.parent.getParts ∧ tp.part.registeredKind = some tp.kind := by
  cases part with
  | mk hd c e parts =>
    rw [allTextParts] at h
    rcases List.mem_append.mp h with h | h
    · obtain ⟨h1, h2, h3, h4⟩ := levelTextParts_mem msg _ tp h
      exact ⟨h1, Or.inl h2, by rw [h2]; exact h3, h4⟩
    · obtain ⟨h1, h2, h3, h4⟩ := allTextPartsList_mem msg parts tp h
      exact ⟨h1, Or.inr (by rw [subParts_mk]; exact h2), h3, h4⟩
/-- The text parts found inside a list of siblings, likewise. -/
theorem allTextPartsList_mem (msg : bodyPart) (parts : List bodyPart) (tp : textPart)
    (h : tp ∈ allTextPartsList msg parts) :
    tp.message = msg ∧ tp.parent ∈ subPartsList parts ∧
      tp.part ∈ tp.parent.getParts ∧ tp.part.registeredKind = some tp.kind := by
  cases parts with
  | nil => simp [allTextPartsList] at h
  | cons p rest =>
    rw [allTextPartsList] at h
    rw [subPartsList]
    rcases List.mem_append.mp h with h | h
    · obtain ⟨h1, h2, h3, h4⟩ := allTextParts_mem msg p tp h
      refine ⟨h1, ?_, h3, h4⟩
      rcases h2 with h2 | h2
      · simp [h2]
      · simp [h2]
    · obtain ⟨h1, h2, h3, h4⟩ := allTextPartsList_mem msg rest tp h
      exact ⟨h1, by simp [h2], h3, h4⟩
end

/-- C25: for every container message, the text-part list holds the text parts of the
qualifying parts strictly below the root (Content-Type top-level type text, registered
media type), container by container in pre-order, the qualifying immediate children of
a container in child order before those found inside its children; the parts the
entries are built from are, entry for entry, the qualifying parts below the root, each
entry built for the message from a child of its container by the constructor registered
for the child's media type; and a part without a Content-Type field never yields a text
part.  The discovery completes on
every tree whose Content-Type fields have their own field class. -/
theorem C25_text_parts_at_every_depth (msg : bodyPart) (hcontainer : msg.getPartCount ≠ 0) :
    (msg.subPartsContentTyped = true →
        ∀ mp, ∃ mp1, findTextParts msg msg mp = .ok mp1) ∧
      (∀ mp mp1, findTextParts msg msg mp = .ok mp1 →
        mp1.m_textParts = mp.m_textParts ++ allTextParts msg msg) ∧
      (∀ now mp, messageParser.new msg now = .ok mp →
        mp.m_textParts = allTextParts msg msg) ∧
      ((allTextParts msg msg).map (fun tp => tp.part)).Perm
        (msg.subParts.filter bodyPart.qualifiesAsText) ∧
      (∀ tp ∈ allTextParts msg msg,
        tp.message = msg ∧ (tp.parent = msg ∨ tp.parent ∈ msg.subParts) ∧
          tp.part ∈ tp.parent.getParts ∧ tp.part.registeredKind = some tp.kind) ∧
      ∀ p, p.getHeader.findField fields.CONTENT_TYPE = .error .no_such_field →
        p ∉ (allTextParts msg msg).map (fun tp => tp.part) := by
  refine ⟨fun htyped mp => ⟨_, findTextParts_container_typed msg msg mp hcontainer htyped⟩,
    ?_, ?_, allTextParts_perm msg msg, fun tp htp => allTextParts_mem msg msg tp htp, ?_⟩
  · intro mp mp1 h
    rw [findTextParts_container msg msg mp mp1 hcontainer h]
    rfl
  · intro now mp h
    obtain ⟨mp0, _, _, _, ht, _, htext⟩ := new_ok_stages msg now mp h
    rw [findTextParts_container msg msg _ mp hcontainer htext]
    simp [messageParser.addTextParts, pushAttachments_textParts, ht]
  · intro p habsent hmem
    have hq := (allTextParts_perm msg msg).mem_iff.mp hmem
    obtain ⟨ctf, hct⟩ := qualifiesAsText_contentType p (List.mem_filter.mp hq).2
    rw [findContentType_absent _ habsent] at hct
    contradiction

/-- Witness of C25: the theorem applied to a concrete message with text parts at two
depths. -/
theorem C25_text_parts_at_every_depth_witness :
    ∃ mp1, findTextParts nestedTextMessage nestedTextMessage messageParser.init = .ok mp1 ∧
      mp1.m_textParts =
        [{ kind := .plainTextPart, message := nestedTextMessage,
           parent := nestedTextMessage, part := plainLeaf },
         { kind := .htmlTextPart, message := nestedTextMessage,
           parent := htmlContainer, part := htmlLeaf }] :=
  have h := C25_text_parts_at_every_depth nestedTextMessage (by decide)
  (h.1 (by decide) messageParser.init).elim fun mp1 hmp1 =>
    ⟨mp1, hmp1, h.2.1 messageParser.init mp1 hmp1⟩

theorem findTextParts_frame (msg part : bodyPart) (mp mp1 : messageParser)
    (h : findTextParts msg part mp = .ok mp1) :
    ∃ tps, mp1 = mp.addTextParts tps := by
  by_cases hc : part.getPartCount = 0
  · simp only [findTextParts, hc, if_true] at h
    split at h
    · contradiction
    · split at h
      · split at h
        · contradiction
        · simp only [Except.ok.injEq] at h
          exact ⟨_, h.symm⟩
      · simp only [Except.ok.injEq] at h
        exact ⟨[], by rw [addTextParts_nil]; exact h.symm⟩
  · exact ⟨_, findTextParts_container msg part mp mp1 hc h⟩

/-- The attachment list and the provenance map of a completed analysis are those the
walk of `findAttachments` built from empty lists. -/
theorem new_attachments (msg : bodyPart) (now : datetime) (mp : messageParser)
    (h : messageParser.new msg now = .ok mp) :
    ∃ mp0 : messageParser, mp0.m_attach = [] ∧ mp0.m_attachInfo = [] ∧
      mp.m_attach =
        (mp0.pushAttachments (msg.subParts.filter bodyPart.attachmentRule)).m_attach ∧
      mp.m_attachInfo =
        (mp0.pushAttachments (msg.subParts.filter bodyPart.attachmentRule)).m_attachInfo := by
  obtain ⟨mp0, _, ha, hi, _, _, htext⟩ := new_ok_stages msg now mp h
  obtain ⟨tps, htps⟩ := findTextParts_frame msg msg _ mp htext
  exact ⟨mp0, ha, hi, by rw [htps]; rfl, by rw [htps]; rfl⟩

mutual
/-- A part strictly below `part` is a smaller tree than `part`. -/
theorem sizeOf_subParts (part q : bodyPart) (h : q ∈ part.subParts) :
    sizeOf q < sizeOf part := by
  cases part with
  | mk hd c e parts =>
    rw [subParts_mk] at h
    have := sizeOf_subPartsList parts q h
    simp only [bodyPart.mk.sizeOf_spec]
    omega
/-- A part at or below a list of siblings is smaller than the list. -/
theorem sizeOf_subPartsList (parts : List bodyPart) (q : bodyPart)
    (h : q ∈ subPartsList parts) : sizeOf q < sizeOf parts := by
  cases parts with
  | nil => simp [subPartsList] at h
  | cons p rest =>
    rw [subPartsList] at h
    simp only [List.cons.sizeOf_spec]
    rcases List.mem_cons.mp h with rfl | h
    · omega
    · rcases List.mem_append.mp h with h | h
      · have := sizeOf_subParts p q h
        omega
      · have := sizeOf_subPartsList rest q h
        omega
end

/-- The root is none of the parts strictly below it. -/
theorem not_mem_subParts_self (part : bodyPart) : part ∉ part.subParts :=
  fun h => Nat.lt_irrefl _ (sizeOf_subParts part part h)

/-- C26: the root message part is never itself classified as an attachment.  For every
message whose body has no child parts `findAttachments` leaves the state as it is,
whatever the Content-Type and Content-Disposition fields of the message are, and the
attachment list of a completed analysis is empty; for every message the root is none of
the classified parts the attachments are built from, the walk adds at most as many
attachments as there are parts strictly below the root, and a completed analysis has
at most that many. -/
theorem C26_root_is_never_an_attachment (msg : bodyPart) :
    (msg.getPartCount = 0 → ∀ mp, findAttachments msg mp = .ok mp) ∧
      msg ∉ msg.subParts.filter bodyPart.attachmentRule ∧
      (∀ mp mp1, findAttachments msg mp = .ok mp1 →
        mp1.m_attach =
            mp.m_attach ++
              (msg.subParts.filter bodyPart.attachmentRule).map bodyPart.attachmentOf ∧
          mp1.m_attach.length ≤ mp.m_attach.length + msg.subParts.length) ∧
      ∀ now mp, messageParser.new msg now = .ok mp →
        mp.getAttachmentCount ≤ msg.subParts.length ∧
        (msg.getPartCount = 0 → mp.m_attach = [] ∧ mp.getAttachmentCount = 0) := by
  refine ⟨fun hsingle mp => findAttachments_leaf msg mp hsingle,
    fun hmem => not_mem_subParts_self msg (List.mem_filter.mp hmem).1, ?_, ?_⟩
  · intro mp mp1 h
    rw [findAttachments_ok msg mp mp1 h, pushAttachments_attach]
    refine ⟨rfl, ?_⟩
    simp only [List.length_append, List.length_map]
    exact Nat.add_le_add_left (List.length_filter_le _ _) _
  · intro now mp h
    obtain ⟨mp0, ha, _, hattach, _⟩ := new_attachments msg now mp h
    rw [pushAttachments_attach, ha] at hattach
    have hlen : mp.getAttachmentCount =
        (msg.subParts.filter bodyPart.attachmentRule).length := by
      simp [messageParser.getAttachmentCount, hattach]
    refine ⟨by rw [hlen]; exact List.length_filter_le _ _, ?_⟩
    intro hsingle
    have hsub : msg.subParts = [] := subParts_leaf msg (List.length_eq_zero.mp hsingle)
    rw [hsub] at hattach hlen
    exact ⟨by simpa using hattach, by simpa using hlen⟩

/-- C27: attachment and text-part classification are not mutually exclusive.  For every
container message and every child part with Content-Type text/plain or text/html and a
Content-Disposition whose name is not inline, every completed analysis holds both an
attachment built from the child, with the copy of the disposition field as provenance,
and a text part built from the child by the constructor registered for its media type.
The analysis completes whenever the envelope fields and the Content-Disposition,
Content-Type and Content-Description fields below the root have their own field
classes. -/
theorem C27_attached_text_is_both (msg p : bodyPart) (now : datetime)
    (ctf : genericField mediaType) (cdf : genericField disposition)
    (hchild : p ∈ msg.getParts)
    (hct : p.getHeader.findContentType = .ok ctf)
    (hval : ctf.getValue = { m_type := mediaTypes.TEXT, m_subType := mediaTypes.TEXT_PLAIN } ∨
      ctf.getValue = { m_type := mediaTypes.TEXT, m_subType := mediaTypes.TEXT_HTML })
    (hcd : p.getHeader.findContentDisposition = .ok cdf)
    (hname : cdf.getValue.getName ≠ dispositionTypes.INLINE) :
    (msg.getHeader.envelopeOk now = true → msg.subPartsTyped = true →
        ∃ mp, messageParser.new msg now = .ok mp) ∧
      ∀ mp, messageParser.new msg now = .ok mp →
        (∃ i, mp.getAttachmentAt i = some p.attachmentOf ∧
          mp.getAttachmentInfo i = some cdf.clone) ∧
        ∃ tp, tp ∈ mp.m_textParts ∧ tp.part = p ∧ tp.parent = msg ∧ tp.message = msg ∧
          textPartFactory.getInstance.create ctf.getValue = .ok tp.kind := by
  have hcontainer : msg.getPartCount ≠ 0 := by
    intro h0
    rw [List.length_eq_zero.mp h0] at hchild
    simp at hchild
  constructor
  · intro henv htyped
    obtain ⟨mp0, hmp0⟩ := resolveEnvelope_complete messageParser.init msg.getHeader now henv
    have hall := (subPartsTyped_iff msg).mp htyped
    have hct' : msg.subPartsContentTyped = true :=
      (subPartsContentTyped_iff msg).mpr
        (fun q hq => castsOk_contentTypeOk _ (hall q hq))
    exact ⟨_, by
      rw [new_eq msg now mp0 hmp0, findAttachments_eq msg mp0 hall]
      exact findTextParts_container_typed msg msg _ hcontainer hct'⟩
  · intro mp h
    obtain ⟨hrule, hprov⟩ := attachmentRule_of_disposition p cdf hcd hname
    have hsub : p ∈ msg.subParts := mem_subParts_of_child msg p hchild
    have hmem : p ∈ msg.subParts.filter bodyPart.attachmentRule :=
      List.mem_filter.mpr ⟨hsub, hrule⟩
    obtain ⟨i, hi⟩ := List.getElem?_of_mem hmem
    obtain ⟨mp0, ha, hinfo, hattach, hmap⟩ := new_attachments msg now mp h
    constructor
    · refine ⟨i, ?_, ?_⟩
      · simp [messageParser.getAttachmentAt, hattach, pushAttachments_attach, ha, hi]
      · have := pushAttachments_info mp0 _ (keysBelow_of_nil mp0 hinfo) i p hi
        rw [ha] at this
        simp only [messageParser.getAttachmentInfo] at this ⊢
        rw [hmap]
        simpa [hprov] using this
    · obtain ⟨mpA, _, _, _, ht, _, htext⟩ := new_ok_stages msg now mp h
      have hmp := findTextParts_container msg msg _ mp hcontainer htext
      have hkind : ∃ kind, textPartFactory.getInstance.create ctf.getValue = .ok kind := by
        rcases hval with hv | hv
        · exact ⟨_, by rw [hv]; exact create_text_plain⟩
        · exact ⟨_, by rw [hv]; exact create_text_html⟩
      obtain ⟨kind, hkind⟩ := hkind
      have htextchild : p.isTextChild = true := by
        rcases hval with hv | hv <;>
          simp [bodyPart.isTextChild, hct, hv, mediaType.getType]
      refine ⟨{ kind := kind, message := msg, parent := msg, part := p }, ?_, rfl, rfl, rfl,
        hkind⟩
      rw [hmp, allTextParts_eq]
      simp only [messageParser.addTextParts]
      apply List.mem_append_right
      apply List.mem_append_left
      unfold levelTextParts
      apply List.mem_filterMap.mpr
      exact ⟨p, List.mem_filter.mpr ⟨hchild, htextchild⟩,
        by simp [textPartOf, bodyPart.registeredKind, hct, hkind]⟩

/-- Witness of C27: the theorem applied to a concrete message whose second part is an
attached text/plain part. -/
theorem C27_attached_text_is_both_witness :
    ∃ mp, messageParser.new attachedTextMessage datetime.zero = .ok mp ∧
      (∃ i, mp.getAttachmentAt i = some attachedTextLeaf.attachmentOf ∧
        mp.getAttachmentInfo i = some (exampleDisposition "attachment").clone) ∧
      ∃ tp, tp ∈ mp.m_textParts ∧ tp.part = attachedTextLeaf :=
  have h := C27_attached_text_is_both attachedTextMessage attachedTextLeaf datetime.zero
    { m_name := fields.CONTENT_TYPE,
      m_value := { m_type := mediaTypes.TEXT, m_subType := mediaTypes.TEXT_PLAIN } }
    (exampleDisposition "attachment")
    (by simp [attachedTextMessage, bodyPart.getParts]) rfl (Or.inl rfl) rfl (by decide)
  (h.1 (by decide) (by decide)).elim fun mp hmp =>
    ⟨mp, hmp, (h.2 mp hmp).1,
      (h.2 mp hmp).2.elim fun tp htp => ⟨tp, htp.1, htp.2.1⟩⟩

end vmime
